import Mathlib

/-!
# Shopping-cart module of the card shop (`script.js`)

A shallow embedding of `script.js` and the properties of its cart operations.

Modelling conventions.

* A Number is a double, kept as the exact rational it stands for; every arithmetic
  operation rounds its exact result to the nearest double (`toDouble`), and `String` and
  `toFixed` print as the language defines, exponent form included.  A quantity is an
  integer-valued Number (or an infinity, `NaN`, or the `null` that `JSON.stringify` writes
  for those), a price is a finite Number.
* Strings are sequences of Unicode characters; on such sequences the substring test agrees
  with the one JavaScript performs on UTF-16 code units.
* The browser state the script touches is explicit: the `'cart'` slot of `localStorage`,
  the three page regions the script reads and writes (`.cart-count`, `#cart-items`,
  `#cart-total`) and the list of `alert` messages shown.
* A function of the script becomes a function from the state to an `Outcome`: the state it
  leaves behind together with the exception it threw, if any.
* The text held by the storage slot is either the serialisation of a cart (kept as the cart
  that was serialised) or a text that is not JSON at all (kept literally, with the evidence
  that the JSON grammar rejects it).  JSON texts that are not carts are not represented.
* `parseInt` and the conversions of decimal texts round correctly, as the engines in use
  do; the language would allow an approximation beyond twenty significant digits.
-/

namespace CardShop

/-! ## JavaScript values -/

/-- The exceptions the script can raise. -/
inductive JSError
  | syntaxError
  | typeError
deriving DecidableEq, Repr

/-- A Number: a finite double given by its exact rational value, an infinity, or `NaN`.
Negative zero is identified with zero; nothing the script shows tells them apart. -/
inductive JSNumber
  | val (q : ℚ)
  | inf (negative : Bool)
  | nan
deriving DecidableEq

/-- The integer nearest to `y`, the even one on a tie. -/
def roundHalfEven (y : ℚ) : ℤ :=
  let f := ⌊y⌋
  let d := y - f
  if d < 1 / 2 then f
  else if 1 / 2 < d then f + 1
  else if f % 2 = 0 then f
  else f + 1

/-- The Number nearest to the exact value `x` (IEEE 754 binary64, round to nearest, ties to
even): a multiple of `2^(e-52)` for the binary exponent `e` of `x` (of `2^-1074` in the
subnormal range), or an infinity from `2^1024` on. -/
def toDouble (x : ℚ) : JSNumber :=
  if x = 0 then .val 0
  else
    let e := Int.log 2 |x|
    let q : ℚ := 2 ^ max (e - 52) (-1074)
    let r : ℚ := roundHalfEven (|x| / q) * q
    if 2 ^ 1024 ≤ r then .inf (decide (x < 0))
    else .val (if x < 0 then -r else r)

/-- The significant digits of a digit string: trailing zeros removed. -/
def stripZeros (ds : List Char) : List Char :=
  (ds.reverse.dropWhile (· == '0')).reverse

/-- The exponent form `d.ddde+n` in which `String` prints a Number from `10^21` on; `c` is
the integer whose digits are printed. -/
def exponentForm (c : ℕ) : String :=
  let ds := (Nat.repr c).data
  let e := Nat.repr (ds.length - 1)
  match stripZeros ds with
  | [] => "0"
  | [d] => String.mk [d] ++ "e+" ++ e
  | d :: rest => String.mk (d :: '.' :: rest) ++ "e+" ++ e

/-- The decimal with `k` significant digits that reads back as the double `v` (of `n`
digits), if there is one: the multiple of `10^(n-k)` just below or just above `v`, the
nearer one when both read back as `v`, the one with the even last digit on a tie. -/
def candidate (v n k : ℕ) : Option ℕ :=
  let scale := 10 ^ (n - k)
  let lo := v / scale * scale
  let hi := lo + scale
  let okLo := decide (toDouble lo = .val v)
  let okHi := decide (toDouble hi = .val v)
  if okLo && okHi then
    if v - lo < hi - v then some lo
    else if hi - v < v - lo then some hi
    else if (lo / scale) % 2 = 0 then some lo
    else some hi
  else if okLo then some lo
  else if okHi then some hi
  else none

/-- The integer whose decimal digits `String(v)` prints for a positive integer double `v`:
the one with the fewest significant digits that reads back as `v`.  Up to `2^53` that is
`v` itself, every shorter decimal being another double. -/
def shortest (v : ℕ) : ℕ :=
  if v ≤ 2 ^ 53 then v
  else
    let n := (Nat.repr v).length
    ((List.range n).findSome? fun i => candidate v n (i + 1)).getD v

/-- `String(v)` for a non-negative integer double `v`: plain digits below `10^21`, exponent
form from there on. -/
def natToString (v : ℕ) : String :=
  let c := shortest v
  if c < 10 ^ 21 then Nat.repr c else exponentForm c

/-- The decimal digits of `n` with a point inserted before the last `f` of them, as
`Number.prototype.toFixed` lays them out (zero-padded on the left to `f + 1` digits). -/
def fixedDigits (f : ℕ) (n : ℕ) : List Char :=
  let m := (Nat.repr n).data
  if f = 0 then m
  else
    let m := if m.length ≤ f then List.replicate (f + 1 - m.length) '0' ++ m else m
    m.take (m.length - f) ++ '.' :: m.drop (m.length - f)

/-- `x.toFixed(f)` for a finite `x`: the sign, then `String(x)` when `x` is `10^21` or more,
and otherwise the integer `n` nearest to `x * 10^f` (the larger one on a tie) laid out with
`f` decimals. -/
def toFixed (x : ℚ) (f : ℕ) : String :=
  let s := if x < 0 then "-" else ""
  let x := if x < 0 then -x else x
  if 10 ^ 21 ≤ x then s ++ natToString ⌊x⌋.toNat
  else s ++ String.mk (fixedDigits f (⌊x * 10 ^ f + 1 / 2⌋).toNat)

namespace JSNumber

/-- The operator `*` on Numbers. -/
def mul : JSNumber → JSNumber → JSNumber
  | val a, val b => toDouble (a * b)
  | val a, inf b => if a = 0 then nan else inf (xor (decide (a < 0)) b)
  | inf a, val b => if b = 0 then nan else inf (xor a (decide (b < 0)))
  | inf a, inf b => inf (xor a b)
  | nan, _ => nan
  | _, nan => nan

/-- The operator `+` on Numbers. -/
def add : JSNumber → JSNumber → JSNumber
  | val a, val b => toDouble (a + b)
  | val _, inf b => inf b
  | inf a, val _ => inf a
  | inf a, inf b => if a = b then inf a else nan
  | nan, _ => nan
  | _, nan => nan

/-- The comparison `a <= b`; any comparison with `NaN` is false. -/
def le : JSNumber → JSNumber → Bool
  | val a, val b => decide (a ≤ b)
  | val _, inf b => !b
  | inf a, val _ => a
  | inf a, inf b => a || !b
  | nan, _ => false
  | _, nan => false

/-- The method `toFixed`. -/
def toFixed : JSNumber → ℕ → String
  | val q, f => CardShop.toFixed q f
  | inf false, _ => "Infinity"
  | inf true, _ => "-Infinity"
  | nan, _ => "NaN"

end JSNumber

/-- The value of a `quantity` field or of a counter: an integer-valued Number (the integer
stands for the double of that value), an infinity, `NaN`, or `null`. -/
inductive JSVal
  | int (n : ℤ)
  | inf (negative : Bool)
  | nan
  | null
deriving DecidableEq

namespace JSVal

/-- The conversion `ToNumber`: `null` converts to `0`. -/
def toNumber : JSVal → JSNumber
  | int n => .val n
  | inf b => .inf b
  | nan => .nan
  | null => .val 0

/-- An integer-valued Number as a value. -/
def ofNumber : JSNumber → JSVal
  | .val q => int ⌊q⌋
  | .inf b => inf b
  | .nan => nan

/-- The operator `+` on operands that are Numbers or `null`. -/
def add (a b : JSVal) : JSVal :=
  ofNumber (a.toNumber.add b.toNumber)

/-- The comparison `a <= b` on operands that are Numbers or `null`. -/
def le (a b : JSVal) : Bool :=
  a.toNumber.le b.toNumber

/-- The conversion `String(v)`. -/
def toString : JSVal → String
  | int (Int.ofNat m) => natToString m
  | int (Int.negSucc m) => "-" ++ natToString (m + 1)
  | inf false => "Infinity"
  | inf true => "-Infinity"
  | nan => "NaN"
  | null => "null"

/-- What `JSON.stringify` followed by `JSON.parse` makes of the value: a finite Number
reads back as itself, `NaN` and the infinities are written as `null`. -/
def viaJSON : JSVal → JSVal
  | int n => int n
  | inf _ => null
  | nan => null
  | null => null

/-- The value an `<input type="number">` holds after `input.value = v`: a text that is not a
number is sanitised to the empty string. -/
def inputValue : JSVal → String
  | int n => (int n).toString
  | inf _ => ""
  | nan => ""
  | null => ""

end JSVal

/-- White space and line terminators that `parseInt` skips (`StrWhiteSpaceChar`). -/
def isStrWhiteSpaceChar (c : Char) : Bool :=
  let n := c.toNat
  n == 0x09 || n == 0x0A || n == 0x0B || n == 0x0C || n == 0x0D || n == 0x20 || n == 0xA0 ||
  n == 0x1680 || (0x2000 ≤ n && n ≤ 0x200A) || n == 0x2028 || n == 0x2029 || n == 0x202F ||
  n == 0x205F || n == 0x3000 || n == 0xFEFF

/-- The value of a run of decimal digits. -/
def digitsValue (Z : List Char) : ℕ :=
  Z.foldl (fun acc d => acc * 10 + (d.toNat - '0'.toNat)) 0

/-- The mathematical integer `parseInt(string, 10)` reads: skip white space, read a sign,
read the longest run of decimal digits; `none` when there is no digit at all. -/
def mathInt (string : String) : Option ℤ :=
  let S := string.data.dropWhile isStrWhiteSpaceChar
  let sign : ℤ := if S.head? = some '-' then -1 else 1
  let S := if S.head? = some '+' ∨ S.head? = some '-' then S.tail else S
  let Z := S.takeWhile Char.isDigit
  if Z.isEmpty then none else some (sign * (digitsValue Z : ℤ))

/-- `parseInt(string, 10)`: `NaN` when no integer is read, otherwise the Number nearest to
the integer read (an infinity from `2^1024` on), as the engines compute it. -/
def parseInt (string : String) : JSVal :=
  match mathInt string with
  | none => .nan
  | some z => .ofNumber (toDouble z)

/-- `array.findIndex(p)`, with `none` for the result `-1`. -/
def findIndex {α : Type} (p : α → Bool) : List α → Option ℕ
  | [] => none
  | x :: xs => if p x then some 0 else (findIndex p xs).map (· + 1)

/-- `s.includes(search)` on the characters of the two strings: try every start position. -/
def includes : List Char → List Char → Bool
  | [], search => search.isEmpty
  | c :: s, search => search.isPrefixOf (c :: s) || includes s search

/-! ## The grammar of JSON texts -/

namespace JSON

/-- JSON white space. -/
def isWs (c : Char) : Bool :=
  c == ' ' || c == '\t' || c == '\n' || c == '\r'

/-- Drop leading JSON white space. -/
def skipWs : List Char → List Char
  | [] => []
  | c :: cs => if isWs c then skipWs cs else c :: cs

/-- A hexadecimal digit. -/
def isHex (c : Char) : Bool :=
  c.isDigit || ('a' ≤ c && c ≤ 'f') || ('A' ≤ c && c ≤ 'F')

/-- The rest of a string literal after its opening quote; the result is what follows the
closing quote. -/
def stringBody : List Char → Option (List Char)
  | [] => none
  | c :: cs =>
    if c = '"' then some cs
    else if c = '\\' then
      match cs with
      | [] => none
      | e :: cs1 =>
        if e = 'u' then
          match cs1 with
          | h1 :: h2 :: h3 :: h4 :: cs2 =>
            if isHex h1 && isHex h2 && isHex h3 && isHex h4 then stringBody cs2 else none
          | _ => none
        else if e = '"' ∨ e = '\\' ∨ e = '/' ∨ e = 'b' ∨ e = 'f' ∨ e = 'n' ∨ e = 'r' ∨ e = 't'
        then stringBody cs1
        else none
    else if c.toNat < 0x20 then none
    else stringBody cs

/-- One or more digits; the result is what follows them. -/
def digits1 (cs : List Char) : Option (List Char) :=
  match cs with
  | d :: _ => if d.isDigit then some (cs.dropWhile Char.isDigit) else none
  | [] => none

/-- A number literal: `-? (0 | [1-9][0-9]*) (. [0-9]+)? ([eE] [+-]? [0-9]+)?`. -/
def number (cs : List Char) : Option (List Char) :=
  let cs := match cs with
    | '-' :: r => r
    | _ => cs
  let afterInt : Option (List Char) := match cs with
    | '0' :: r => some r
    | _ => digits1 cs
  let afterFrac : Option (List Char) := afterInt.bind fun r => match r with
    | '.' :: r1 => digits1 r1
    | _ => some r
  afterFrac.bind fun r => match r with
    | 'e' :: '+' :: r1 => digits1 r1
    | 'e' :: '-' :: r1 => digits1 r1
    | 'e' :: r1 => digits1 r1
    | 'E' :: '+' :: r1 => digits1 r1
    | 'E' :: '-' :: r1 => digits1 r1
    | 'E' :: r1 => digits1 r1
    | _ => some r

/-- The kind of an array or object that is still open. -/
inductive Container
  | array
  | object
deriving DecidableEq

/-- What the recogniser expects next: a value, or what may follow a completed value. -/
inductive Mode
  | value
  | after
deriving DecidableEq

/-- A member key and its colon; the result is what follows the colon. -/
def key (cs : List Char) : Option (List Char) :=
  match skipWs cs with
  | '"' :: r =>
    match stringBody r with
    | some r1 =>
      match skipWs r1 with
      | ':' :: r2 => some r2
      | _ => none
    | none => none
  | _ => none

/-- The pushdown recogniser of the JSON grammar.  Every step but the last consumes a
character, so `fuel` one above the length of the text is never exhausted. -/
def run : ℕ → Mode → List Container → List Char → Bool
  | 0, _, _, _ => false
  | fuel + 1, .value, stack, cs =>
    match skipWs cs with
    | '[' :: r =>
      match skipWs r with
      | ']' :: r1 => run fuel .after stack r1
      | _ => run fuel .value (.array :: stack) r
    | '{' :: r =>
      match skipWs r with
      | '}' :: r1 => run fuel .after stack r1
      | _ =>
        match key r with
        | some r1 => run fuel .value (.object :: stack) r1
        | none => false
    | '"' :: r =>
      match stringBody r with
      | some r1 => run fuel .after stack r1
      | none => false
    | 't' :: 'r' :: 'u' :: 'e' :: r => run fuel .after stack r
    | 'f' :: 'a' :: 'l' :: 's' :: 'e' :: r => run fuel .after stack r
    | 'n' :: 'u' :: 'l' :: 'l' :: r => run fuel .after stack r
    | cs1 =>
      match number cs1 with
      | some r => run fuel .after stack r
      | none => false
  | fuel + 1, .after, stack, cs =>
    match stack, skipWs cs with
    | [], [] => true
    | .array :: st, ',' :: r => run fuel .value (.array :: st) r
    | .array :: st, ']' :: r => run fuel .after st r
    | .object :: st, ',' :: r =>
      match key r with
      | some r1 => run fuel .value (.object :: st) r1
      | none => false
    | .object :: st, '}' :: r => run fuel .after st r
    | _, _ => false

/-- Whether `JSON.parse` accepts the text (it is a JSON value between optional white
space). -/
def wellFormed (text : String) : Bool :=
  run (text.data.length + 2) .value [] text.data

end JSON

/-! ## Data model -/

/-- The record an add-to-cart button passes to `addToCart`: `{ id, name, price, image }`. -/
structure Product where
  id : String
  name : String
  price : ℚ
  image : String
deriving DecidableEq

/-- One entry of the cart: the fields of the product and a `quantity`.  The price and an
integer quantity are Numbers held in memory, so the rationals they are given by are
doubles. -/
structure CartItem where
  id : String
  name : String
  price : ℚ
  image : String
  quantity : JSVal
deriving DecidableEq

/-- The cart: the entries in array order. -/
abbrev Cart := List CartItem

/-- The text of the storage slot: `JSON.stringify(cart)` for some cart held in memory (its
prices and integer quantities are Numbers, that is doubles), or a text that `JSON.parse`
rejects. -/
inductive StoredText
  | json (cart : Cart)
  | malformed (text : String) (h : JSON.wellFormed text = false)

namespace StoredText

/-- Truthiness of the text: only the empty string is falsy.  A serialised cart is at least
the two characters of an empty array. -/
def truthy : StoredText → Bool
  | json _ => true
  | malformed text _ => text != ""

end StoredText

/-- `JSON.stringify(cart)`. -/
def JSON.stringify (cart : Cart) : StoredText :=
  .json cart

/-- An entry as it comes back from the storage: its `quantity` went through JSON. -/
def CartItem.viaJSON (item : CartItem) : CartItem :=
  { item with quantity := item.quantity.viaJSON }

/-- `JSON.parse(text)`: the cart that was serialised, with every `NaN` and infinity read
back as `null` and every finite Number as itself; a `SyntaxError` on a text that is not
JSON. -/
def JSON.parse : StoredText → Except JSError Cart
  | .json cart => .ok (cart.map CartItem.viaJSON)
  | .malformed _ _ => .error .syntaxError

/-- A row `<tr>` built by `renderCartTable`, cell by cell; `itemId` is the id the two
listeners of the row are bound to. -/
structure Row where
  imgSrc : String
  imgAlt : String
  name : String
  price : String
  inputType : String
  inputMin : String
  inputValue : String
  subtotal : String
  button : String
  buttonClass : String
  itemId : String
deriving DecidableEq

/-- The regions of the page the cart functions read and write. -/
structure Document where
  /-- The `textContent` of every `.cart-count` element, in document order. -/
  cartCount : List String
  /-- The rows of `#cart-items`, when the element exists. -/
  cartItems : Option (List Row)
  /-- The `textContent` of `#cart-total`, when the element exists. -/
  cartTotal : Option String
deriving DecidableEq

/-- The browser state. -/
structure World where
  /-- The result of `localStorage.getItem('cart')`; `none` for an absent key. -/
  localStorage : Option StoredText
  document : Document
  /-- The messages shown by `alert`, oldest first. -/
  alerts : List String

/-- The state a call leaves behind and the exception it threw, if any. -/
structure Outcome where
  world : World
  thrown : Option JSError

/-- Sequencing of statements: the next one runs only if nothing was thrown. -/
def Outcome.andThen (o : Outcome) (next : World → Outcome) : Outcome :=
  match o.thrown with
  | none => next o.world
  | some _ => o

/-! ## The cart functions of `script.js` -/

/-- `getCart()`. -/
def getCart (w : World) : Except JSError Cart :=
  match w.localStorage with
  | none => .ok []
  | some cartJSON => if cartJSON.truthy then JSON.parse cartJSON else .ok []

/-- `saveCart(cart)`. -/
def saveCart (cart : Cart) (w : World) : World :=
  { w with localStorage := some (JSON.stringify cart) }

/-- `updateCartCount()`. -/
def updateCartCount (w : World) : Outcome :=
  match getCart w with
  | .error e => ⟨w, some e⟩
  | .ok cart =>
    let count : JSVal := cart.foldl (fun sum item => sum.add item.quantity) (JSVal.int 0)
    let countElements := w.document.cartCount
    ⟨{ w with document :=
        { w.document with cartCount := countElements.map fun _ => count.toString } }, none⟩

/-- The row `renderCartTable` appends for `item`. -/
def renderRow (item : CartItem) : Row :=
  let subtotal := JSNumber.mul (.val item.price) item.quantity.toNumber
  { imgSrc := item.image
    imgAlt := item.name
    name := item.name
    price := "$" ++ toFixed item.price 2
    inputType := "number"
    inputMin := "1"
    inputValue := item.quantity.inputValue
    subtotal := "$" ++ subtotal.toFixed 2
    button := "Remove"
    buttonClass := "btn-add"
    itemId := item.id }

/-- The body of the `forEach` callback of `renderCartTable`: append the row of `item` to the
table body and add its subtotal to `total`. -/
def renderStep (acc : List Row × JSNumber) (item : CartItem) : List Row × JSNumber :=
  let subtotal := JSNumber.mul (.val item.price) item.quantity.toNumber
  (acc.1 ++ [renderRow item], acc.2.add subtotal)

/-- `renderCartTable()`. -/
def renderCartTable (w : World) : Outcome :=
  let tableBody := w.document.cartItems
  let totalElement := w.document.cartTotal
  match tableBody with
  | none => ⟨w, none⟩
  | some _ =>
    match getCart w with
    | .error e => ⟨w, some e⟩
    | .ok cart =>
      let (rows, total) := cart.foldl renderStep ([], .val 0)
      ⟨{ w with document :=
          { w.document with
            cartItems := some rows
            cartTotal := totalElement.map fun _ => "$" ++ total.toFixed 2 } }, none⟩

/-- `alert(message)`. -/
def alert (message : String) (w : World) : Outcome :=
  ⟨{ w with alerts := w.alerts ++ [message] }, none⟩

/-- `addToCart(product)`. -/
def addToCart (product : Product) (w : World) : Outcome :=
  match getCart w with
  | .error e => ⟨w, some e⟩
  | .ok cart =>
    let cart :=
      match findIndex (fun item => item.id == product.id) cart with
      | some existingIndex =>
        cart.modify (fun item => { item with quantity := item.quantity.add (.int 1) })
          existingIndex
      | none =>
        cart ++ [{ id := product.id, name := product.name, price := product.price,
                   image := product.image, quantity := .int 1 }]
    (updateCartCount (saveCart cart w)).andThen
      (alert (product.name ++ " added to cart!"))

/-- `removeFromCart(productId)`. -/
def removeFromCart (productId : String) (w : World) : Outcome :=
  match getCart w with
  | .error e => ⟨w, some e⟩
  | .ok cart =>
    let cart := cart.filter fun item => item.id != productId
    (renderCartTable (saveCart cart w)).andThen updateCartCount

/-- `changeQuantity(productId, newQty)`. -/
def changeQuantity (productId : String) (newQty : String) (w : World) : Outcome :=
  match getCart w with
  | .error e => ⟨w, some e⟩
  | .ok cart =>
    match findIndex (fun i => i.id == productId) cart with
    | none => ⟨w, none⟩
    | some item =>
      let quantity := parseInt newQty
      let cart := cart.modify (fun i => { i with quantity := quantity }) item
      if quantity.le (.int 0) then
        removeFromCart productId w
      else
        (renderCartTable (saveCart cart w)).andThen updateCartCount

/-! ## The product filter -/

/-- A `.product-card` element: the two `data-` attributes the filter reads and the
`style.display` it writes. -/
structure ProductCard where
  name : String
  category : String
  display : String
deriving DecidableEq

/-- The body of the `forEach` callback of `applyFilters`: decide the display of one card. -/
def filterCard (toLowerCase : String → String) (searchTerm category : String)
    (card : ProductCard) : ProductCard :=
  let name := toLowerCase card.name
  let cat := card.category
  let matchesSearch := includes name.data searchTerm.data
  let matchesCategory := category == "all" || category == cat
  { card with display := if matchesSearch && matchesCategory then "flex" else "none" }

/-- The closure `applyFilters` of `setupProductFilters`.  `searchInput` and `categorySelect`
are the `value` of the two controls, `none` when the control is missing from the page;
`toLowerCase` is `String.prototype.toLowerCase`. -/
def applyFilters (toLowerCase : String → String) (searchInput categorySelect : Option String)
    (productCards : List ProductCard) : Except JSError (List ProductCard) :=
  match searchInput with
  | none => .error .typeError
  | some searchValue =>
    let searchTerm := toLowerCase searchValue
    match categorySelect with
    | none => .error .typeError
    | some category => .ok (productCards.map (filterCard toLowerCase searchTerm category))

/-- The operations of the cart mutation API, as data. -/
inductive Op
  | add (product : Product)
  | remove (productId : String)
  | change (productId : String) (newQty : String)

/-- Run one operation. -/
def Op.run : Op → World → Outcome
  | .add product, w => addToCart product w
  | .remove productId, w => removeFromCart productId w
  | .change productId newQty, w => changeQuantity productId newQty w

/-- Run a sequence of operations, stopping at the first exception. -/
def runAll : List Op → World → Outcome
  | [], w => ⟨w, none⟩
  | op :: ops, w => (op.run w).andThen (runAll ops)

/-! ## Specification vocabulary -/

/-- The ids of the entries of a cart, in order. -/
def ids (cart : Cart) : List String :=
  cart.map (·.id)

/-- The integer a stored quantity stands for (`null` counts as `0`, as in arithmetic). -/
def JSVal.toInt : JSVal → ℤ
  | .int n => n
  | .inf _ => 0
  | .nan => 0
  | .null => 0

/-- The exact amount, in cents, of an entry whose unit price is `cents` hundredths. -/
def lineCents (cents : CartItem → ℕ) (item : CartItem) : ℕ :=
  cents item * item.quantity.toInt.toNat

/-- The exact amount `price × quantity` of an entry whose unit price is `cents`
hundredths. -/
def lineAmount (cents : CartItem → ℕ) (item : CartItem) : ℚ :=
  (cents item : ℚ) / 100 * item.quantity.toInt

/-- The call ended normally and left `cart` in the storage. -/
def Stores (o : Outcome) (cart : Cart) : Prop :=
  o.thrown = none ∧ getCart o.world = .ok cart

/-! ## Sample states -/

/-- A page with two count displays, a cart table and a total display. -/
def samplePage : Document :=
  ⟨["7", ""], some [], some "old"⟩

/-- A state whose storage has no `'cart'` key. -/
def emptyWorld : World :=
  ⟨none, samplePage, []⟩

/-- Two entries, quantities 2 and 1. -/
def sampleCart : Cart :=
  [⟨"p1", "Pikachu", 10, "p.png", .int 2⟩, ⟨"p2", "Charmander", 7 / 2, "c.png", .int 1⟩]

/-- A state whose storage holds `sampleCart`. -/
def sampleWorld : World :=
  ⟨some (.json sampleCart), samplePage, []⟩

/-- A state whose storage holds the text `{not json`. -/
def corruptWorld : World :=
  ⟨some (.malformed "\x7bnot json" (by decide)), samplePage, []⟩

/-- A state whose storage holds the empty string. -/
def blankWorld : World :=
  ⟨some (.malformed "" (by decide)), samplePage, []⟩

/-- A product. -/
def bulbasaur : Product :=
  ⟨"a", "Bulbasaur", 499 / 100, "b.png"⟩

/-- A product with the id of the first entry of `sampleCart`. -/
def pikachu : Product :=
  ⟨"p1", "Pikachu", 10, "p.png"⟩

/-- One entry whose quantity is `2^53`. -/
def bigCart : Cart :=
  [⟨"p1", "Pikachu", 10, "p.png", .int 9007199254740992⟩]

/-- A state whose storage holds `bigCart`. -/
def bigWorld : World :=
  ⟨some (.json bigCart), samplePage, []⟩

/-- Two entries at price 1 whose quantities `2^53 - 1` and `2` add up to `2^53 + 1`. -/
def bigPair : Cart :=
  [⟨"p1", "Pikachu", 1, "p.png", .int 9007199254740991⟩,
   ⟨"p2", "Charmander", 1, "c.png", .int 2⟩]

/-- A state whose storage holds `bigPair`. -/
def bigPairWorld : World :=
  ⟨some (.json bigPair), samplePage, []⟩

/-- One entry whose price is the double nearest to 1.005. -/
def milliCart : Cart :=
  [⟨"p3", "Eevee", 1131529406376837 / 1125899906842624, "e.png", .int 1⟩]

/-- A state whose storage holds `milliCart`. -/
def milliWorld : World :=
  ⟨some (.json milliCart), samplePage, []⟩

/-- The prices of `sampleCart` in cents. -/
def sampleCents (item : CartItem) : ℕ :=
  if item.price = 10 then 1000 else 350

/-- Lower-casing of the ASCII letters, character by character. -/
def asciiLower (s : String) : String :=
  ⟨s.data.map Char.toLower⟩

/-! ## Lemmas on lists -/

theorem findIndex_eq_none {α : Type} (p : α → Bool) (l : List α) :
    findIndex p l = none ↔ ∀ x ∈ l, p x = false := by
  induction l with
  | nil => simp [findIndex]
  | cons x xs ih =>
    by_cases hx : p x = true
    · simp [findIndex, hx]
    · simp [findIndex, hx, ih]

theorem findIndex_eq_some {α : Type} (p : α → Bool) (l : List α) (i : ℕ)
    (h : findIndex p l = some i) : ∃ hi : i < l.length, p l[i] = true := by
  induction l generalizing i with
  | nil => simp [findIndex] at h
  | cons x xs ih =>
    by_cases hx : p x = true
    · simp [findIndex, hx] at h
      subst h
      exact ⟨by simp, by simpa using hx⟩
    · simp [findIndex, hx] at h
      obtain ⟨j, hj, rfl⟩ := h
      obtain ⟨hlt, hp⟩ := ih j hj
      exact ⟨by simpa using hlt, by simpa using hp⟩

theorem findIndex_unique (key : String) (cart : Cart) (i : ℕ) (hi : i < cart.length)
    (huniq : (ids cart).Nodup) (hid : cart[i].id = key) :
    findIndex (fun item => item.id == key) cart = some i := by
  induction cart generalizing i with
  | nil => simp at hi
  | cons x xs ih =>
    simp only [ids, List.map_cons, List.nodup_cons] at huniq
    cases i with
    | zero =>
      simp only [List.getElem_cons_zero] at hid
      simp [findIndex, hid]
    | succ j =>
      simp only [List.getElem_cons_succ] at hid
      have hj : j < xs.length := by simpa using hi
      have hne : x.id ≠ key := by
        intro hx
        apply huniq.1
        rw [hx, ← hid]
        exact List.mem_map_of_mem _ (List.getElem_mem hj)
      simp [findIndex, hne, ih j hj huniq.2 hid]

theorem modify_eq_set {α : Type} (f : α → α) (l : List α) (i : ℕ) (hi : i < l.length) :
    l.modify f i = l.set i (f l[i]) := by
  induction l generalizing i with
  | nil => simp at hi
  | cons x xs ih =>
    cases i with
    | zero => simp
    | succ j => simp [ih j (by simpa using hi)]

theorem mem_set_cases {α : Type} (l : List α) (i : ℕ) (a y : α) (h : y ∈ l.set i a) :
    y ∈ l ∨ y = a := by
  induction l generalizing i with
  | nil => simp at h
  | cons x xs ih =>
    cases i with
    | zero =>
      simp only [List.set_cons_zero, List.mem_cons] at h
      rcases h with h | h
      · exact Or.inr h
      · exact Or.inl (List.mem_cons_of_mem _ h)
    | succ j =>
      simp only [List.set_cons_succ, List.mem_cons] at h
      rcases h with h | h
      · exact Or.inl (h ▸ List.mem_cons_self _ _)
      · rcases ih j h with h' | h'
        · exact Or.inl (List.mem_cons_of_mem _ h')
        · exact Or.inr h'

theorem ids_set (cart : Cart) (i : ℕ) (hi : i < cart.length) (item : CartItem)
    (hid : item.id = cart[i].id) : ids (cart.set i item) = ids cart := by
  induction cart generalizing i with
  | nil => simp at hi
  | cons x xs ih =>
    cases i with
    | zero =>
      simp only [List.getElem_cons_zero] at hid
      simp [ids, hid]
    | succ j =>
      simp only [List.getElem_cons_succ] at hid
      have := ih j (by simpa using hi) hid
      simp only [ids] at this
      simp [ids, this]

/-! ## Lemmas on rounding -/

theorem roundHalfEven_intCast (k : ℤ) : roundHalfEven (k : ℚ) = k := by
  simp [roundHalfEven]

theorem roundHalfEven_abs_sub_le (y : ℚ) : |(roundHalfEven y : ℚ) - y| ≤ 1 / 2 := by
  have h1 : (⌊y⌋ : ℚ) ≤ y := Int.floor_le y
  have h2 : y < ⌊y⌋ + 1 := Int.lt_floor_add_one y
  unfold roundHalfEven
  simp only
  rw [abs_le]
  split_ifs with ha hb hc
  · constructor <;> linarith
  · push_cast
    constructor <;> linarith
  · constructor <;> linarith
  · push_cast
    constructor <;> linarith

/-- A dyadic rational with a significand below `2^53` is a double. -/
theorem toDouble_exact (m : ℤ) (j : ℕ) (hm : |m| < 2 ^ 53) (hj : j ≤ 1074) :
    toDouble ((m : ℚ) / 2 ^ j) = .val ((m : ℚ) / 2 ^ j) := by
  by_cases hm0 : m = 0
  · subst hm0
    simp [toDouble]
  have hx0 : (m : ℚ) / 2 ^ j ≠ 0 := by
    have : (m : ℚ) ≠ 0 := by exact_mod_cast hm0
    positivity
  have habs : |(m : ℚ) / 2 ^ j| = (|m| : ℤ) / 2 ^ j := by
    rw [abs_div, abs_of_pos (by positivity : (0 : ℚ) < 2 ^ j)]
    push_cast
    rfl
  have hpos : (0 : ℚ) < |(m : ℚ) / 2 ^ j| := abs_pos.mpr hx0
  have h53 : ((|m| : ℤ) : ℚ) < 2 ^ 53 := by exact_mod_cast hm
  have hlt : |(m : ℚ) / 2 ^ j| < (2 : ℚ) ^ ((53 : ℤ) - j) := by
    rw [habs, zpow_sub₀ (by norm_num : (2 : ℚ) ≠ 0), zpow_natCast]
    have : ((2 : ℚ) ^ (53 : ℤ)) = 2 ^ 53 := by norm_num
    rw [this]
    exact div_lt_div_of_pos_right h53 (by positivity)
  have he : Int.log 2 |(m : ℚ) / 2 ^ j| < 53 - j :=
    (Int.lt_zpow_iff_log_lt (by norm_num) hpos).mp hlt
  obtain ⟨t, ht⟩ : ∃ t : ℕ,
      max (Int.log 2 |(m : ℚ) / 2 ^ j| - 52) (-1074) = -((j + t : ℕ) : ℤ) := by
    refine ⟨(-(j : ℤ) - max (Int.log 2 |(m : ℚ) / 2 ^ j| - 52) (-1074)).toNat, ?_⟩
    have hle : max (Int.log 2 |(m : ℚ) / 2 ^ j| - 52) (-1074) ≤ -(j : ℤ) := by
      apply max_le <;> omega
    push_cast
    rw [Int.toNat_of_nonneg (by omega)]
    ring
  have hq : (2 : ℚ) ^ max (Int.log 2 |(m : ℚ) / 2 ^ j| - 52) (-1074) = 1 / 2 ^ (j + t) := by
    rw [ht, zpow_neg, zpow_natCast, one_div]
  have hy : |(m : ℚ) / 2 ^ j| / (1 / 2 ^ (j + t)) = ((|m| * 2 ^ t : ℤ) : ℚ) := by
    rw [habs, pow_add]
    push_cast
    field_simp
    ring
  have hr : ((|m| * 2 ^ t : ℤ) : ℚ) * (1 / 2 ^ (j + t)) = |(m : ℚ) / 2 ^ j| := by
    rw [habs, pow_add]
    push_cast
    field_simp
    ring
  have hsmall : ¬ ((2 : ℚ) ^ 1024 ≤ |(m : ℚ) / 2 ^ j|) := by
    rw [not_le, habs]
    have h1 : ((|m| : ℤ) : ℚ) / 2 ^ j ≤ ((|m| : ℤ) : ℚ) :=
      div_le_self (by positivity) (one_le_pow₀ (by norm_num))
    have h2 : (2 : ℚ) ^ 53 < 2 ^ 1024 := by norm_num
    linarith
  unfold toDouble
  simp only [hx0, if_false, hq, hy, roundHalfEven_intCast, hr, hsmall]
  congr 1
  split_ifs with hneg
  · rw [abs_of_neg hneg, neg_neg]
  · rw [abs_of_nonneg (not_lt.mp hneg)]

/-- An integer below `2^53` in magnitude is a double. -/
theorem toDouble_int (n : ℤ) (hn : |n| < 2 ^ 53) : toDouble (n : ℚ) = .val n := by
  have := toDouble_exact n 0 hn (by norm_num)
  simpa using this

/-- The rounding error of a positive number of ordinary size is at most `2^-53` of it. -/
theorem toDouble_error (x : ℚ) (hlo : 1 / 2 ^ 20 ≤ x) (hhi : x ≤ 2 ^ 100) :
    ∃ r : ℚ, toDouble x = .val r ∧ |r - x| ≤ x / 2 ^ 53 := by
  have hpos : 0 < x := lt_of_lt_of_le (by positivity) hlo
  have habs : |x| = x := abs_of_pos hpos
  have he1 : (2 : ℚ) ^ (Int.log 2 x) ≤ x := Int.zpow_log_le_self (by norm_num) hpos
  have he2 : (-20 : ℤ) ≤ Int.log 2 x := by
    apply (Int.zpow_le_iff_le_log (by norm_num) hpos).mp
    rw [zpow_neg, ← one_div]
    exact_mod_cast hlo
  have hmax : max (Int.log 2 x - 52) (-1074) = Int.log 2 x - 52 := max_eq_left (by omega)
  have hq : (2 : ℚ) ^ (Int.log 2 x - 52) = 2 ^ (Int.log 2 x) / 2 ^ 52 := by
    rw [zpow_sub₀ (by norm_num : (2 : ℚ) ≠ 0)]
    norm_num
  set q : ℚ := 2 ^ (Int.log 2 x) / 2 ^ 52 with hqdef
  have hqpos : 0 < q := by positivity
  have hqle : q ≤ x / 2 ^ 52 := div_le_div_of_nonneg_right he1 (by positivity)
  have hround := roundHalfEven_abs_sub_le (x / q)
  have herr : |(roundHalfEven (x / q) : ℚ) * q - x| ≤ q / 2 := by
    have : (roundHalfEven (x / q) : ℚ) * q - x =
        ((roundHalfEven (x / q) : ℚ) - x / q) * q := by
      field_simp
    rw [this, abs_mul, abs_of_pos hqpos]
    calc |(roundHalfEven (x / q) : ℚ) - x / q| * q ≤ 1 / 2 * q :=
          mul_le_mul_of_nonneg_right hround hqpos.le
      _ = q / 2 := by ring
  have herr' : |(roundHalfEven (x / q) : ℚ) * q - x| ≤ x / 2 ^ 53 := by
    have : q / 2 ≤ x / 2 ^ 53 := by
      have h : x / 2 ^ 53 = x / 2 ^ 52 / 2 := by ring
      rw [h]
      linarith
    linarith
  have hsmall : ¬ ((2 : ℚ) ^ 1024 ≤ (roundHalfEven (x / q) : ℚ) * q) := by
    rw [not_le]
    have h1 := (abs_le.mp herr').2
    have h2 : x / 2 ^ 53 ≤ x := div_le_self hpos.le (one_le_pow₀ (by norm_num))
    have h3 : (2 : ℚ) ^ 100 * 2 < 2 ^ 1024 := by norm_num
    linarith
  refine ⟨(roundHalfEven (x / q) : ℚ) * q, ?_, herr'⟩
  unfold toDouble
  simp only [hpos.ne', if_false, habs, hmax, hq, ← hqdef, hsmall, not_lt.mpr hpos.le]

/-- The double nearest to `2^53 + 1` is `2^53`. -/
theorem toDouble_two_pow_53_add_one :
    toDouble 9007199254740993 = .val 9007199254740992 := by
  have hpos : (0 : ℚ) < 9007199254740993 := by norm_num
  have hlog : Int.log 2 |(9007199254740993 : ℚ)| = 53 := by
    rw [abs_of_pos hpos]
    apply le_antisymm
    · have : Int.log 2 (9007199254740993 : ℚ) < 54 :=
        (Int.lt_zpow_iff_log_lt (by norm_num) hpos).mp (by norm_num)
      omega
    · exact (Int.zpow_le_iff_le_log (by norm_num) hpos).mp (by norm_num)
  have hfloor : ⌊(9007199254740993 : ℚ) / 2⌋ = 4503599627370496 := by
    rw [Int.floor_eq_iff]
    constructor <;> norm_num
  unfold toDouble
  rw [if_neg hpos.ne', hlog, abs_of_pos hpos]
  norm_num [roundHalfEven, hfloor]

theorem add_int_int (a b : ℤ) (h : |a + b| < 2 ^ 53) :
    (JSVal.int a).add (.int b) = .int (a + b) := by
  have := toDouble_int (a + b) h
  push_cast at this
  simp [JSVal.add, JSVal.toNumber, JSNumber.add, this, JSVal.ofNumber]

theorem add_null_int (b : ℤ) (h : |b| < 2 ^ 53) : JSVal.null.add (.int b) = .int b := by
  have := toDouble_int b h
  simp [JSVal.add, JSVal.toNumber, JSNumber.add, this, JSVal.ofNumber]

theorem add_int_null (a : ℤ) (h : |a| < 2 ^ 53) : (JSVal.int a).add .null = .int a := by
  have := toDouble_int a h
  simp [JSVal.add, JSVal.toNumber, JSNumber.add, this, JSVal.ofNumber]

theorem parseInt_of_mathInt (text : String) (z : ℤ) (hz : |z| < 2 ^ 53)
    (h : mathInt text = some z) : parseInt text = .int z := by
  simp [parseInt, h, toDouble_int z hz, JSVal.ofNumber]

theorem natToString_small (m : ℕ) (h : m ≤ 2 ^ 53) : natToString m = Nat.repr m := by
  have h1 : shortest m = m := by
    unfold shortest
    rw [if_pos h]
  have h2 : m < 10 ^ 21 := lt_of_le_of_lt h (by norm_num)
  unfold natToString
  simp only [h1]
  rw [if_pos h2]

theorem toString_small (n : ℤ) (h : |n| ≤ 2 ^ 53) : (JSVal.int n).toString = toString n := by
  cases n with
  | ofNat m =>
    have hm : m ≤ 2 ^ 53 := by
      have : |(Int.ofNat m)| = (m : ℤ) := abs_of_nonneg (Int.ofNat_nonneg m)
      rw [this] at h
      exact_mod_cast h
    simp only [JSVal.toString, natToString_small m hm]
    rfl
  | negSucc m =>
    have hm : m + 1 ≤ 2 ^ 53 := by
      have : |(Int.negSucc m)| = ((m + 1 : ℕ) : ℤ) := by
        rw [abs_of_neg (Int.negSucc_lt_zero m), Int.neg_negSucc]
      rw [this] at h
      exact_mod_cast h
    simp only [JSVal.toString, natToString_small (m + 1) hm]
    rfl

/-! ## Lemmas on the storage -/

theorem viaJSON_idem (v : JSVal) : v.viaJSON.viaJSON = v.viaJSON := by
  cases v <;> rfl

theorem item_viaJSON_idem (item : CartItem) : item.viaJSON.viaJSON = item.viaJSON := by
  simp [CartItem.viaJSON, viaJSON_idem]

theorem map_viaJSON_of_fixed (cart : Cart) (h : ∀ item ∈ cart, item.viaJSON = item) :
    cart.map CartItem.viaJSON = cart := by
  induction cart with
  | nil => rfl
  | cons x xs ih =>
    rw [List.map_cons, h x (List.mem_cons_self _ _),
      ih fun item hitem => h item (List.mem_cons_of_mem _ hitem)]

theorem getCart_of_storage (w w' : World) (h : w'.localStorage = w.localStorage) :
    getCart w' = getCart w := by
  simp [getCart, h]

theorem getCart_saveCart (cart : Cart) (w : World) :
    getCart (saveCart cart w) = .ok (cart.map CartItem.viaJSON) := by
  simp [getCart, saveCart, JSON.stringify, JSON.parse, StoredText.truthy]

/-- Every entry read from the storage went through JSON. -/
theorem getCart_fixed (w : World) (cart : Cart) (h : getCart w = .ok cart) :
    ∀ item ∈ cart, item.viaJSON = item := by
  unfold getCart at h
  cases hs : w.localStorage with
  | none =>
    simp only [hs, Except.ok.injEq] at h
    subst h
    simp
  | some text =>
    simp only [hs] at h
    cases text with
    | json c =>
      simp only [StoredText.truthy, JSON.parse, if_true, Except.ok.injEq] at h
      subst h
      intro item hitem
      obtain ⟨x, _, rfl⟩ := List.mem_map.mp hitem
      exact item_viaJSON_idem x
    | malformed t ht =>
      by_cases he : t = ""
      · simp [StoredText.truthy, he] at h
        subst h
        simp
      · simp [StoredText.truthy, he, JSON.parse] at h

/-- A quantity read from the storage is an integer or `null`. -/
theorem getCart_quantity (w : World) (cart : Cart) (h : getCart w = .ok cart) :
    ∀ item ∈ cart, (∃ n, item.quantity = .int n) ∨ item.quantity = .null := by
  intro item hitem
  have hfix := getCart_fixed w cart h item hitem
  have hq : item.quantity.viaJSON = item.quantity := by
    have := congrArg CartItem.quantity hfix
    simpa [CartItem.viaJSON] using this
  cases hv : item.quantity with
  | int n => exact Or.inl ⟨n, rfl⟩
  | inf b => rw [hv] at hq; simp [JSVal.viaJSON] at hq
  | nan => rw [hv] at hq; simp [JSVal.viaJSON] at hq
  | null => exact Or.inr rfl

theorem getCart_save_of_fixed (cart : Cart) (w : World)
    (h : ∀ item ∈ cart, item.viaJSON = item) : getCart (saveCart cart w) = .ok cart := by
  rw [getCart_saveCart, map_viaJSON_of_fixed cart h]

theorem updateCartCount_storage (w : World) :
    (updateCartCount w).world.localStorage = w.localStorage := by
  unfold updateCartCount
  cases getCart w <;> rfl

theorem updateCartCount_thrown (w : World) (cart : Cart) (h : getCart w = .ok cart) :
    (updateCartCount w).thrown = none := by
  simp [updateCartCount, h]

theorem renderCartTable_storage (w : World) :
    (renderCartTable w).world.localStorage = w.localStorage := by
  unfold renderCartTable
  cases w.document.cartItems with
  | none => rfl
  | some rows => cases getCart w <;> rfl

theorem renderCartTable_thrown (w : World) (cart : Cart) (h : getCart w = .ok cart) :
    (renderCartTable w).thrown = none := by
  unfold renderCartTable
  cases w.document.cartItems with
  | none => rfl
  | some rows => simp [h]

theorem stores_render_update (w : World) (cart : Cart) (h : getCart w = .ok cart) :
    Stores ((renderCartTable w).andThen updateCartCount) cart := by
  have h1 : getCart (renderCartTable w).world = .ok cart := by
    rw [getCart_of_storage _ _ (renderCartTable_storage w), h]
  unfold Stores Outcome.andThen
  rw [renderCartTable_thrown w cart h]
  exact ⟨updateCartCount_thrown _ cart h1, by
    rw [getCart_of_storage _ _ (updateCartCount_storage _), h1]⟩

theorem stores_update_alert (w : World) (cart : Cart) (message : String)
    (h : getCart w = .ok cart) :
    Stores ((updateCartCount w).andThen (alert message)) cart := by
  have h1 : getCart (updateCartCount w).world = .ok cart := by
    rw [getCart_of_storage _ _ (updateCartCount_storage w), h]
  unfold Stores Outcome.andThen
  rw [updateCartCount_thrown w cart h]
  exact ⟨rfl, by rw [← h1]; exact getCart_of_storage _ _ rfl⟩

/-! ## What each mutation leaves in the storage -/

theorem ids_map_viaJSON (cart : Cart) : ids (cart.map CartItem.viaJSON) = ids cart := by
  simp [ids, CartItem.viaJSON, Function.comp_def]

theorem stores_addToCart_found (w : World) (cart : Cart) (p : Product) (i : ℕ)
    (hcart : getCart w = .ok cart)
    (hfind : findIndex (fun item => item.id == p.id) cart = some i) :
    ∃ hi : i < cart.length, Stores (addToCart p w)
      (cart.set i { cart[i] with quantity := (cart[i].quantity.add (.int 1)).viaJSON }) := by
  obtain ⟨hi, _⟩ := findIndex_eq_some _ _ _ hfind
  refine ⟨hi, ?_⟩
  unfold addToCart
  simp only [hcart, hfind]
  apply stores_update_alert
  rw [modify_eq_set _ _ _ hi, getCart_saveCart, List.map_set,
    map_viaJSON_of_fixed cart (getCart_fixed w cart hcart)]
  rfl

theorem stores_addToCart_new (w : World) (cart : Cart) (p : Product)
    (hcart : getCart w = .ok cart)
    (hfind : findIndex (fun item => item.id == p.id) cart = none) :
    Stores (addToCart p w) (cart ++ [⟨p.id, p.name, p.price, p.image, .int 1⟩]) := by
  unfold addToCart
  simp only [hcart, hfind]
  apply stores_update_alert
  apply getCart_save_of_fixed
  intro item hitem
  rcases List.mem_append.mp hitem with h | h
  · exact getCart_fixed w cart hcart item h
  · simp only [List.mem_singleton] at h
    subst h
    rfl

theorem stores_removeFromCart (w : World) (cart : Cart) (productId : String)
    (hcart : getCart w = .ok cart) :
    Stores (removeFromCart productId w) (cart.filter fun item => item.id != productId) := by
  unfold removeFromCart
  simp only [hcart]
  apply stores_render_update
  apply getCart_save_of_fixed
  intro item hitem
  exact getCart_fixed w cart hcart item (List.mem_filter.mp hitem).1

theorem changeQuantity_unknown (w : World) (cart : Cart) (productId newQty : String)
    (hcart : getCart w = .ok cart)
    (hfind : findIndex (fun i => i.id == productId) cart = none) :
    changeQuantity productId newQty w = ⟨w, none⟩ := by
  unfold changeQuantity
  simp only [hcart, hfind]

theorem changeQuantity_delegates (w : World) (cart : Cart) (productId newQty : String) (i : ℕ)
    (hcart : getCart w = .ok cart)
    (hfind : findIndex (fun i => i.id == productId) cart = some i)
    (hle : (parseInt newQty).le (.int 0) = true) :
    changeQuantity productId newQty w = removeFromCart productId w := by
  unfold changeQuantity
  simp only [hcart, hfind, hle, if_true]

theorem stores_changeQuantity_set (w : World) (cart : Cart) (productId newQty : String) (i : ℕ)
    (hcart : getCart w = .ok cart)
    (hfind : findIndex (fun i => i.id == productId) cart = some i)
    (hle : (parseInt newQty).le (.int 0) = false) :
    ∃ hi : i < cart.length, Stores (changeQuantity productId newQty w)
      (cart.set i { cart[i] with quantity := (parseInt newQty).viaJSON }) := by
  obtain ⟨hi, _⟩ := findIndex_eq_some _ _ _ hfind
  refine ⟨hi, ?_⟩
  unfold changeQuantity
  simp only [hcart, hfind, hle]
  apply stores_render_update
  rw [modify_eq_set _ _ _ hi, getCart_saveCart, List.map_set,
    map_viaJSON_of_fixed cart (getCart_fixed w cart hcart)]
  rfl

theorem nodup_after_op (w : World) (cart : Cart) (op : Op)
    (hcart : getCart w = .ok cart) (huniq : (ids cart).Nodup) :
    ∃ cart', Stores (op.run w) cart' ∧ (ids cart').Nodup := by
  cases op with
  | add p =>
    cases hfind : findIndex (fun item => item.id == p.id) cart with
    | none =>
      refine ⟨_, stores_addToCart_new w cart p hcart hfind, ?_⟩
      have hnew : ∀ x ∈ cart, ¬ x.id = p.id := by
        intro x hx
        simpa using (findIndex_eq_none _ _).mp hfind x hx
      simp only [ids, List.map_append, List.map_cons, List.map_nil]
      rw [List.nodup_append]
      refine ⟨huniq, List.nodup_singleton _, ?_⟩
      intro a ha hb
      rw [List.mem_singleton] at hb
      subst hb
      obtain ⟨x, hx, hxa⟩ := List.mem_map.mp ha
      exact hnew x hx hxa
    | some i =>
      obtain ⟨hi, hst⟩ := stores_addToCart_found w cart p i hcart hfind
      exact ⟨_, hst, by rw [ids_set cart i hi]; exacts [huniq, rfl]⟩
  | remove productId =>
    refine ⟨_, stores_removeFromCart w cart productId hcart, ?_⟩
    simp only [ids]
    exact List.Nodup.sublist (List.Sublist.map _ (List.filter_sublist _)) huniq
  | change productId newQty =>
    cases hfind : findIndex (fun i => i.id == productId) cart with
    | none =>
      refine ⟨cart, ?_, huniq⟩
      show Stores (changeQuantity productId newQty w) cart
      rw [changeQuantity_unknown w cart productId newQty hcart hfind]
      exact ⟨rfl, hcart⟩
    | some i =>
      cases hle : (parseInt newQty).le (.int 0) with
      | true =>
        refine ⟨cart.filter fun item => item.id != productId, ?_, ?_⟩
        · show Stores (changeQuantity productId newQty w) _
          rw [changeQuantity_delegates w cart productId newQty i hcart hfind hle]
          exact stores_removeFromCart w cart productId hcart
        · simp only [ids]
          exact List.Nodup.sublist (List.Sublist.map _ (List.filter_sublist _)) huniq
      | false =>
        obtain ⟨hi, hst⟩ := stores_changeQuantity_set w cart productId newQty i hcart hfind hle
        exact ⟨_, hst, by rw [ids_set cart i hi]; exacts [huniq, rfl]⟩

theorem nodup_after_ops (ops : List Op) (w : World) (cart : Cart)
    (hcart : getCart w = .ok cart) (huniq : (ids cart).Nodup) :
    ∃ cart', Stores (runAll ops w) cart' ∧ (ids cart').Nodup := by
  induction ops generalizing w cart with
  | nil => exact ⟨cart, ⟨rfl, hcart⟩, huniq⟩
  | cons op ops ih =>
    obtain ⟨c1, ⟨hthrown, hc1⟩, hu1⟩ := nodup_after_op w cart op hcart huniq
    simp only [runAll, Outcome.andThen, hthrown]
    exact ih _ c1 hc1 hu1

/-! ## The cart mutation API -/

theorem add_two_pow_53_one :
    (JSVal.int 9007199254740992).add (.int 1) = .int 9007199254740992 := by
  have h1 : (JSVal.int 9007199254740992).add (.int 1) =
      JSVal.ofNumber (toDouble (((9007199254740992 : ℤ) : ℚ) + ((1 : ℤ) : ℚ))) := by
    simp only [JSVal.add, JSVal.toNumber, JSNumber.add]
  have h2 : toDouble (((9007199254740992 : ℤ) : ℚ) + ((1 : ℤ) : ℚ)) =
      .val 9007199254740992 := by
    have h0 := toDouble_two_pow_53_add_one
    norm_num at h0 ⊢
    exact h0
  have h3 : JSVal.ofNumber (.val 9007199254740992) = .int 9007199254740992 := by
    simp only [JSVal.ofNumber]
    norm_num
  rw [h1, h2, h3]

/-- C1, refuted as stated: with the quantity `2^53` stored for `p1`, `addToCart` stores
`2^53` again, the double nearest to `2^53 + 1`, and not one more than before. -/
theorem addToCart_rounds_at_two_pow_53 :
    getCart bigWorld = .ok bigCart ∧ (ids bigCart).Nodup ∧
    getCart (addToCart pikachu bigWorld).world =
      .ok [⟨"p1", "Pikachu", 10, "p.png", .int 9007199254740992⟩] ∧
    getCart (addToCart pikachu bigWorld).world ≠
      .ok [⟨"p1", "Pikachu", 10, "p.png", .int 9007199254740993⟩] := by
  have e : bigCart[0].quantity.add (.int 1) = .int 9007199254740992 := add_two_pow_53_one
  have hst : getCart (addToCart pikachu bigWorld).world =
      .ok [⟨"p1", "Pikachu", 10, "p.png", .int 9007199254740992⟩] := by
    obtain ⟨_, h⟩ := stores_addToCart_found bigWorld bigCart pikachu 0 rfl
      (by simp [findIndex, bigCart, pikachu])
    rw [e] at h
    exact h.2
  refine ⟨rfl, by simp [ids, bigCart], hst, ?_⟩
  rw [hst]
  intro h
  simp only [Except.ok.injEq, List.cons.injEq, CartItem.mk.injEq, JSVal.int.injEq] at h
  norm_num at h

/-- C1, amended: on a stored cart with unique ids, `addToCart(p)` ends normally and, if an
entry has the id of `p`, stores the same cart with only the quantity of that entry changed:
to `n + 1` for an integer `n` with `|n + 1| < 2^53`, to `1` for a `null`, and in general to
the double nearest to one more; if no entry has the id of `p`, it stores the old cart
followed by one entry with the fields of `p` and quantity 1.  From the empty cart, adding
`p` twice stores one entry with quantity 2, and adding `p` then a product with another id
stores the two entries in that order. -/
theorem addToCart_spec (w : World) (cart : Cart) (p : Product)
    (hcart : getCart w = .ok cart) (huniq : (ids cart).Nodup) :
    (addToCart p w).thrown = none ∧
    (∀ (i : ℕ) (hi : i < cart.length) (n : ℤ), cart[i].id = p.id → cart[i].quantity = .int n →
      |n + 1| < 2 ^ 53 →
      getCart (addToCart p w).world =
        .ok (cart.set i { cart[i] with quantity := .int (n + 1) })) ∧
    (∀ (i : ℕ) (hi : i < cart.length), cart[i].id = p.id → cart[i].quantity = .null →
      getCart (addToCart p w).world = .ok (cart.set i { cart[i] with quantity := .int 1 })) ∧
    (∀ (i : ℕ) (hi : i < cart.length), cart[i].id = p.id →
      getCart (addToCart p w).world =
        .ok (cart.set i
          { cart[i] with quantity := (cart[i].quantity.add (.int 1)).viaJSON })) ∧
    ((∀ item ∈ cart, item.id ≠ p.id) →
      getCart (addToCart p w).world =
        .ok (cart ++ [⟨p.id, p.name, p.price, p.image, .int 1⟩])) ∧
    (cart = [] →
      getCart ((addToCart p w).andThen (addToCart p)).world =
        .ok [⟨p.id, p.name, p.price, p.image, .int 2⟩]) ∧
    (cart = [] → ∀ p2 : Product, p2.id ≠ p.id →
      getCart ((addToCart p w).andThen (addToCart p2)).world =
        .ok [⟨p.id, p.name, p.price, p.image, .int 1⟩,
             ⟨p2.id, p2.name, p2.price, p2.image, .int 1⟩]) := by
  have hnone : (∀ item ∈ cart, item.id ≠ p.id) →
      findIndex (fun item => item.id == p.id) cart = none := by
    intro h
    rw [findIndex_eq_none]
    intro x hx
    simpa using h x hx
  refine ⟨?_, ?_, ?_, ?_, ?_, ?_, ?_⟩
  · cases hfind : findIndex (fun item => item.id == p.id) cart with
    | none => exact (stores_addToCart_new w cart p hcart hfind).1
    | some i => exact (stores_addToCart_found w cart p i hcart hfind).2.1
  · intro i hi n hid hq hn
    obtain ⟨_, hst⟩ := stores_addToCart_found w cart p i hcart
      (findIndex_unique p.id cart i hi huniq hid)
    rw [hst.2, hq, add_int_int n 1 hn]
    rfl
  · intro i hi hid hq
    obtain ⟨_, hst⟩ := stores_addToCart_found w cart p i hcart
      (findIndex_unique p.id cart i hi huniq hid)
    rw [hst.2, hq, add_null_int 1 (by norm_num)]
    rfl
  · intro i hi hid
    obtain ⟨_, hst⟩ := stores_addToCart_found w cart p i hcart
      (findIndex_unique p.id cart i hi huniq hid)
    exact hst.2
  · intro h
    exact (stores_addToCart_new w cart p hcart (hnone h)).2
  · intro hnil
    subst hnil
    have h1 := stores_addToCart_new w [] p hcart rfl
    obtain ⟨_, h2⟩ := stores_addToCart_found (addToCart p w).world _ p 0 h1.2
      (by simp [findIndex])
    simp only [Outcome.andThen, h1.1]
    rw [h2.2]
    simp only [List.nil_append, List.getElem_cons_zero, List.set_cons_zero,
      add_int_int 1 1 (by norm_num), JSVal.viaJSON]
    norm_num
  · intro hnil p2 hne
    subst hnil
    have h1 := stores_addToCart_new w [] p hcart rfl
    have h2 := stores_addToCart_new (addToCart p w).world _ p2 h1.2
      (by simp [findIndex, Ne.symm hne])
    simp only [Outcome.andThen, h1.1]
    rw [h2.2]
    rfl

/-- C1, amended, at `sampleWorld` (the product is already in the cart) and at
`emptyWorld`. -/
theorem addToCart_spec_witness :
    getCart sampleWorld = .ok sampleCart ∧ (ids sampleCart).Nodup ∧
    getCart (addToCart pikachu sampleWorld).world =
      .ok [⟨"p1", "Pikachu", 10, "p.png", .int 3⟩,
           ⟨"p2", "Charmander", 7 / 2, "c.png", .int 1⟩] ∧
    getCart emptyWorld = .ok [] ∧
    getCart ((addToCart bulbasaur emptyWorld).andThen (addToCart bulbasaur)).world =
      .ok [⟨"a", "Bulbasaur", 499 / 100, "b.png", .int 2⟩] ∧
    getCart ((addToCart bulbasaur emptyWorld).andThen (addToCart pikachu)).world =
      .ok [⟨"a", "Bulbasaur", 499 / 100, "b.png", .int 1⟩,
           ⟨"p1", "Pikachu", 10, "p.png", .int 1⟩] :=
  ⟨rfl, by decide,
    (addToCart_spec sampleWorld sampleCart pikachu rfl (by decide)).2.1 0 (by decide) 2 rfl rfl
      (by norm_num),
    rfl,
    (addToCart_spec emptyWorld [] bulbasaur rfl (by decide)).2.2.2.2.2.1 rfl,
    (addToCart_spec emptyWorld [] bulbasaur rfl (by decide)).2.2.2.2.2.2 rfl pikachu
      (by decide)⟩

/-- C2: when the stored cart has an entry with id `p` and the text parses to an integer
`n ≤ 0`, `changeQuantity(p, text)` does exactly what `removeFromCart(p)` does: it ends
normally and stores the cart without its entries of id `p`, the others unchanged and in
order. -/
theorem changeQuantity_floor (w : World) (cart : Cart) (p text : String) (n : ℤ)
    (hcart : getCart w = .ok cart) (hmem : ∃ item ∈ cart, item.id = p)
    (hparse : parseInt text = .int n) (hn : n ≤ 0) :
    changeQuantity p text w = removeFromCart p w ∧
    (changeQuantity p text w).thrown = none ∧
    getCart (changeQuantity p text w).world = .ok (cart.filter fun item => item.id != p) ∧
    (∀ item ∈ cart.filter (fun item => item.id != p), item.id ≠ p) ∧
    (∀ item ∈ cart, item.id ≠ p → item ∈ cart.filter (fun item => item.id != p)) := by
  obtain ⟨x, hx, hxid⟩ := hmem
  cases hfind : findIndex (fun i => i.id == p) cart with
  | none =>
    have := (findIndex_eq_none _ _).mp hfind x hx
    simp [hxid] at this
  | some i =>
    have hle : (parseInt text).le (.int 0) = true := by
      rw [hparse]
      simp only [JSVal.le, JSVal.toNumber, JSNumber.le, decide_eq_true_eq]
      exact_mod_cast hn
    have heq := changeQuantity_delegates w cart p text i hcart hfind hle
    have hst := stores_removeFromCart w cart p hcart
    refine ⟨heq, ?_, ?_, ?_, ?_⟩
    · rw [heq]; exact hst.1
    · rw [heq]; exact hst.2
    · intro item hitem
      simpa using (List.mem_filter.mp hitem).2
    · intro item hitem hne
      exact List.mem_filter.mpr ⟨hitem, by simpa using hne⟩

/-- C2 at `sampleWorld` with the text `-3`. -/
theorem changeQuantity_floor_witness :
    getCart sampleWorld = .ok sampleCart ∧ (∃ item ∈ sampleCart, item.id = "p1") ∧
    parseInt "-3" = .int (-3) ∧ (-3 : ℤ) ≤ 0 ∧
    getCart (changeQuantity "p1" "-3" sampleWorld).world =
      .ok [⟨"p2", "Charmander", 7 / 2, "c.png", .int 1⟩] :=
  ⟨rfl, ⟨_, List.mem_cons_self _ _, rfl⟩,
    parseInt_of_mathInt "-3" (-3) (by norm_num) (by decide), by decide,
    (changeQuantity_floor sampleWorld sampleCart "p1" "-3" (-3) rfl
      ⟨_, List.mem_cons_self _ _, rfl⟩
      (parseInt_of_mathInt "-3" (-3) (by norm_num) (by decide)) (by decide)).2.2.1⟩

/-- C3: when the stored cart has unique ids, its entry at position `i` has id `p` and the
text parses to an integer `n > 0` (the double `parseInt` returns, whatever its size),
`changeQuantity(p, text)` ends normally and stores the same cart with the quantity of that
entry replaced by `n`. -/
theorem changeQuantity_sets (w : World) (cart : Cart) (p text : String) (n : ℤ) (i : ℕ)
    (hi : i < cart.length) (hcart : getCart w = .ok cart) (huniq : (ids cart).Nodup)
    (hid : cart[i].id = p) (hparse : parseInt text = .int n) (hn : 0 < n) :
    (changeQuantity p text w).thrown = none ∧
    getCart (changeQuantity p text w).world =
      .ok (cart.set i { cart[i] with quantity := .int n }) := by
  have hle : (parseInt text).le (.int 0) = false := by
    rw [hparse]
    simp only [JSVal.le, JSVal.toNumber, JSNumber.le, decide_eq_false_iff_not, not_le]
    exact_mod_cast hn
  obtain ⟨_, hst⟩ := stores_changeQuantity_set w cart p text i hcart
    (findIndex_unique p cart i hi huniq hid) hle
  refine ⟨hst.1, ?_⟩
  rw [hst.2, hparse]
  rfl

/-- C3 at `sampleWorld` with the text `3`. -/
theorem changeQuantity_sets_witness :
    1 < sampleCart.length ∧ getCart sampleWorld = .ok sampleCart ∧ (ids sampleCart).Nodup ∧
    parseInt "3" = .int 3 ∧ (0 : ℤ) < 3 ∧
    getCart (changeQuantity "p2" "3" sampleWorld).world =
      .ok [⟨"p1", "Pikachu", 10, "p.png", .int 2⟩,
           ⟨"p2", "Charmander", 7 / 2, "c.png", .int 3⟩] :=
  ⟨by decide, rfl, by decide, parseInt_of_mathInt "3" 3 (by norm_num) (by decide),
    by decide,
    (changeQuantity_sets sampleWorld sampleCart "p2" "3" 3 1 (by decide) rfl (by decide) rfl
      (parseInt_of_mathInt "3" 3 (by norm_num) (by decide)) (by decide)).2⟩

/-- C4: when no entry of the stored cart has id `u`, `removeFromCart(u)` and
`changeQuantity(u, text)`, for any text, end normally and leave the same cart stored;
`changeQuantity` changes nothing at all. -/
theorem unknown_id_noop (w : World) (cart : Cart) (u text : String)
    (hcart : getCart w = .ok cart) (hu : ∀ item ∈ cart, item.id ≠ u) :
    (removeFromCart u w).thrown = none ∧
    getCart (removeFromCart u w).world = .ok cart ∧
    (changeQuantity u text w).thrown = none ∧
    getCart (changeQuantity u text w).world = .ok cart ∧
    (changeQuantity u text w).world = w := by
  have hfilter : (cart.filter fun item => item.id != u) = cart := by
    rw [List.filter_eq_self]
    intro item hitem
    simpa using hu item hitem
  have hrm := stores_removeFromCart w cart u hcart
  rw [hfilter] at hrm
  have hfind : findIndex (fun i => i.id == u) cart = none := by
    rw [findIndex_eq_none]
    intro x hx
    simpa using hu x hx
  rw [changeQuantity_unknown w cart u text hcart hfind]
  exact ⟨hrm.1, hrm.2, rfl, hcart, rfl⟩

/-- C4 at `sampleWorld` with the id `unknown`. -/
theorem unknown_id_noop_witness :
    getCart sampleWorld = .ok sampleCart ∧ (∀ item ∈ sampleCart, item.id ≠ "unknown") ∧
    getCart (removeFromCart "unknown" sampleWorld).world = .ok sampleCart ∧
    getCart (changeQuantity "unknown" "5" sampleWorld).world = .ok sampleCart :=
  ⟨rfl, by decide,
    (unknown_id_noop sampleWorld sampleCart "unknown" "5" rfl (by decide)).2.1,
    (unknown_id_noop sampleWorld sampleCart "unknown" "5" rfl (by decide)).2.2.2.1⟩

/-- C5: when the stored cart has pairwise distinct ids, every single operation of the
mutation API, with any arguments, ends normally and stores a cart with pairwise distinct
ids, and so does every finite sequence of operations; in particular every cart reached
from an empty cart has pairwise distinct ids. -/
theorem unique_ids_preserved (w : World) (cart : Cart)
    (hcart : getCart w = .ok cart) (huniq : (ids cart).Nodup) :
    (∀ op : Op, ∃ cart', (op.run w).thrown = none ∧ getCart (op.run w).world = .ok cart' ∧
      (ids cart').Nodup) ∧
    (∀ ops : List Op, ∃ cart', (runAll ops w).thrown = none ∧
      getCart (runAll ops w).world = .ok cart' ∧ (ids cart').Nodup) ∧
    (∀ (w0 : World) (ops : List Op), getCart w0 = .ok [] →
      ∃ cart', (runAll ops w0).thrown = none ∧
        getCart (runAll ops w0).world = .ok cart' ∧ (ids cart').Nodup) := by
  refine ⟨?_, ?_, ?_⟩
  · intro op
    obtain ⟨c, hst, hu⟩ := nodup_after_op w cart op hcart huniq
    exact ⟨c, hst.1, hst.2, hu⟩
  · intro ops
    obtain ⟨c, hst, hu⟩ := nodup_after_ops ops w cart hcart huniq
    exact ⟨c, hst.1, hst.2, hu⟩
  · intro w0 ops h0
    obtain ⟨c, hst, hu⟩ := nodup_after_ops ops w0 [] h0 List.nodup_nil
    exact ⟨c, hst.1, hst.2, hu⟩

/-- C5 at `sampleWorld`, for an addition of a product already in the cart. -/
theorem unique_ids_preserved_witness :
    getCart sampleWorld = .ok sampleCart ∧ (ids sampleCart).Nodup ∧
    ∃ cart', ((Op.add pikachu).run sampleWorld).thrown = none ∧
      getCart ((Op.add pikachu).run sampleWorld).world = .ok cart' ∧ (ids cart').Nodup :=
  ⟨rfl, by decide,
    (unique_ids_preserved sampleWorld sampleCart rfl (by decide)).1 (.add pikachu)⟩

/-! ## Reading the storage -/

theorem stores_changeQuantity_nan (w : World) (cart : Cart) (p text : String) (i : ℕ)
    (hi : i < cart.length) (hcart : getCart w = .ok cart) (huniq : (ids cart).Nodup)
    (hid : cart[i].id = p) (hparse : parseInt text = .nan) :
    Stores (changeQuantity p text w) (cart.set i { cart[i] with quantity := .null }) := by
  have hle : (parseInt text).le (.int 0) = false := by
    rw [hparse]
    rfl
  obtain ⟨_, hst⟩ := stores_changeQuantity_set w cart p text i hcart
    (findIndex_unique p cart i hi huniq hid) hle
  rw [hparse] at hst
  exact hst

/-- C6, evaluated: on the cart of `sampleWorld`, `changeQuantity("p1", "abc")` and
`changeQuantity("p1", "")` parse the text to `NaN`, end normally and leave the entry `p1`
in the stored cart, its quantity read back as `null`. -/
theorem changeQuantity_nan_keeps_entry :
    parseInt "abc" = .nan ∧ parseInt "" = .nan ∧
    (changeQuantity "p1" "abc" sampleWorld).thrown = none ∧
    getCart (changeQuantity "p1" "abc" sampleWorld).world =
      .ok [⟨"p1", "Pikachu", 10, "p.png", .null⟩,
           ⟨"p2", "Charmander", 7 / 2, "c.png", .int 1⟩] ∧
    getCart (changeQuantity "p1" "" sampleWorld).world =
      .ok [⟨"p1", "Pikachu", 10, "p.png", .null⟩,
           ⟨"p2", "Charmander", 7 / 2, "c.png", .int 1⟩] :=
  ⟨by decide, by decide,
    (stores_changeQuantity_nan sampleWorld sampleCart "p1" "abc" 0 (by decide) rfl (by decide)
      rfl (by decide)).1,
    (stores_changeQuantity_nan sampleWorld sampleCart "p1" "abc" 0 (by decide) rfl (by decide)
      rfl (by decide)).2,
    (stores_changeQuantity_nan sampleWorld sampleCart "p1" "" 0 (by decide) rfl (by decide)
      rfl (by decide)).2⟩

/-- C7, refuted as stated: with the text `{not json` in the storage slot `getCart` throws a
`SyntaxError`; it returns no cart, in particular not the empty one. -/
theorem getCart_throws_on_corrupt_text :
    JSON.wellFormed "\x7bnot json" = false ∧
    getCart corruptWorld = .error .syntaxError ∧
    ¬ ∃ cart, getCart corruptWorld = .ok cart := by
  refine ⟨by decide, rfl, ?_⟩
  rintro ⟨cart, h⟩
  have h' : (Except.error JSError.syntaxError : Except JSError Cart) = .ok cart := h
  cases h'

/-- C7, amended: `getCart` returns the empty cart when the key is absent or holds the empty
string, returns the cart read by `JSON.parse` when the slot holds a serialised cart, and
throws the `SyntaxError` of `JSON.parse` when the slot holds any other text that is not
JSON. -/
theorem getCart_spec (w : World) :
    (w.localStorage = none → getCart w = .ok []) ∧
    (∀ cart, w.localStorage = some (.json cart) →
      getCart w = .ok (cart.map CartItem.viaJSON)) ∧
    (∀ text h, w.localStorage = some (.malformed text h) → text = "" →
      getCart w = .ok []) ∧
    (∀ text h, w.localStorage = some (.malformed text h) → text ≠ "" →
      getCart w = .error .syntaxError) := by
  refine ⟨?_, ?_, ?_, ?_⟩
  · intro h
    simp [getCart, h]
  · intro cart h
    simp [getCart, h, StoredText.truthy, JSON.parse]
  · intro text ht h he
    simp [getCart, h, StoredText.truthy, he]
  · intro text ht h he
    simp [getCart, h, StoredText.truthy, he, JSON.parse]

/-- C7, amended, at the four sample states. -/
theorem getCart_spec_witness :
    getCart emptyWorld = .ok [] ∧
    getCart sampleWorld = .ok (sampleCart.map CartItem.viaJSON) ∧
    getCart blankWorld = .ok [] ∧
    ("\x7bnot json" ≠ "" ∧ getCart corruptWorld = .error .syntaxError) :=
  ⟨(getCart_spec emptyWorld).1 rfl,
    (getCart_spec sampleWorld).2.1 sampleCart rfl,
    (getCart_spec blankWorld).2.2.1 "" (by decide) rfl rfl,
    by decide, (getCart_spec corruptWorld).2.2.2 "\x7bnot json" (by decide) rfl (by decide)⟩

/-! ## The navbar count -/

theorem add_to_two_pow_53_add_one (a b : ℤ) (h : a + b = 9007199254740993) :
    (JSVal.int a).add (.int b) = .int 9007199254740992 := by
  have h1 : (JSVal.int a).add (.int b) = JSVal.ofNumber (toDouble ((a : ℚ) + (b : ℚ))) := by
    simp only [JSVal.add, JSVal.toNumber, JSNumber.add]
  have h2 : (a : ℚ) + (b : ℚ) = 9007199254740993 := by exact_mod_cast h
  have h3 : JSVal.ofNumber (.val 9007199254740992) = .int 9007199254740992 := by
    simp only [JSVal.ofNumber]
    norm_num
  rw [h1, h2, toDouble_two_pow_53_add_one, h3]

theorem count_fold (cart : Cart) (s : ℤ)
    (hq : ∀ item ∈ cart, (∃ n, item.quantity = .int n) ∨ item.quantity = .null)
    (hb : |s| + (cart.map fun item => |item.quantity.toInt|).sum < 2 ^ 53) :
    cart.foldl (fun sum item => sum.add item.quantity) (JSVal.int s) =
        .int (s + (cart.map fun item => item.quantity.toInt).sum) ∧
      |s + (cart.map fun item => item.quantity.toInt).sum| < 2 ^ 53 := by
  induction cart generalizing s with
  | nil => simpa using hb
  | cons x xs ih =>
    have hxs : ∀ item ∈ xs, (∃ n, item.quantity = .int n) ∨ item.quantity = .null :=
      fun item hitem => hq item (List.mem_cons_of_mem _ hitem)
    have hnonneg : 0 ≤ (xs.map fun item => |item.quantity.toInt|).sum := by
      apply List.sum_nonneg
      intro y hy
      obtain ⟨item, _, rfl⟩ := List.mem_map.mp hy
      exact abs_nonneg _
    rw [List.map_cons, List.sum_cons] at hb
    rw [List.foldl_cons, List.map_cons, List.sum_cons]
    rcases hq x (List.mem_cons_self _ _) with ⟨n, hn⟩ | hnull
    · rw [hn] at hb ⊢
      have habs : |s + n| ≤ |s| + |n| := abs_add s n
      have hsn : |s + n| < 2 ^ 53 := by
        have : |(JSVal.int n).toInt| = |n| := rfl
        rw [this] at hb
        linarith
      rw [add_int_int s n hsn]
      have hb' : |s + n| + (xs.map fun item => |item.quantity.toInt|).sum < 2 ^ 53 := by
        have : |(JSVal.int n).toInt| = |n| := rfl
        rw [this] at hb
        linarith
      have := ih (s + n) hxs hb'
      have e : s + ((JSVal.int n).toInt + (xs.map fun item => item.quantity.toInt).sum) =
          s + n + (xs.map fun item => item.quantity.toInt).sum := by
        show s + (n + _) = _
        ring
      rw [e]
      exact this
    · rw [hnull] at hb ⊢
      have h0 : |JSVal.null.toInt| = 0 := by
        show |(0 : ℤ)| = 0
        simp
      rw [h0, zero_add] at hb
      have hs : |s| < 2 ^ 53 := by linarith
      rw [add_int_null s hs]
      have := ih s hxs hb
      have e : s + (JSVal.null.toInt + (xs.map fun item => item.quantity.toInt).sum) =
          s + (xs.map fun item => item.quantity.toInt).sum := by
        show s + (0 + _) = _
        ring
      rw [e]
      exact this

theorem updateCartCount_count (w : World) (cart : Cart) (hcart : getCart w = .ok cart) :
    (updateCartCount w).world.document.cartCount =
      List.replicate w.document.cartCount.length
        (cart.foldl (fun sum item => sum.add item.quantity) (JSVal.int 0)).toString := by
  simp only [updateCartCount, hcart]
  rw [List.map_const']

/-- C9, refuted as stated: with the quantities `2^53 - 1` and `2` stored, whose sum is
`9007199254740993`, every count display shows `9007199254740992`, the double nearest to
the sum. -/
theorem updateCartCount_rounds_above_two_pow_53 :
    getCart bigPairWorld = .ok bigPair ∧
    (bigPair.map fun item => item.quantity.toInt).sum = 9007199254740993 ∧
    (updateCartCount bigPairWorld).world.document.cartCount =
      ["9007199254740992", "9007199254740992"] ∧
    toString (9007199254740993 : ℤ) ≠ "9007199254740992" := by
  have hfold : bigPair.foldl (fun sum item => sum.add item.quantity) (JSVal.int 0) =
      .int 9007199254740992 := by
    have h1 : (JSVal.int 0).add (.int 9007199254740991) = .int 9007199254740991 := by
      have := add_int_int 0 9007199254740991 (by norm_num)
      rw [this]
      norm_num
    have h2 : (JSVal.int 9007199254740991).add (.int 2) = .int 9007199254740992 :=
      add_to_two_pow_53_add_one _ _ (by norm_num)
    have h0 : bigPair.foldl (fun sum item => sum.add item.quantity) (JSVal.int 0) =
        ((JSVal.int 0).add (.int 9007199254740991)).add (.int 2) := by
      rw [bigPair, List.foldl_cons, List.foldl_cons, List.foldl_nil]
    rw [h0, h1, h2]
  have htext : (JSVal.int 9007199254740992).toString = "9007199254740992" := by decide
  refine ⟨rfl, by simp [bigPair, JSVal.toInt], ?_, by decide⟩
  rw [updateCartCount_count bigPairWorld bigPair rfl, hfold, htext]
  rfl

/-- C9, amended: on every stored cart `updateCartCount` ends normally, leaves the storage
(and the table and total regions) as they were, and writes one and the same text into every
count display, however many there are; when the quantities sum to less than `2^53` in
magnitude that text is the decimal text of the sum of the quantities of all entries: `0`
for the empty cart and `3` for quantities 2 and 1. -/
theorem updateCartCount_spec (w : World) (cart : Cart) (hcart : getCart w = .ok cart) :
    (updateCartCount w).thrown = none ∧
    (updateCartCount w).world.localStorage = w.localStorage ∧
    getCart (updateCartCount w).world = .ok cart ∧
    (updateCartCount w).world.document.cartItems = w.document.cartItems ∧
    (updateCartCount w).world.document.cartTotal = w.document.cartTotal ∧
    (∃ text, (updateCartCount w).world.document.cartCount =
      List.replicate w.document.cartCount.length text) ∧
    ((cart.map fun item => |item.quantity.toInt|).sum < 2 ^ 53 →
      (updateCartCount w).world.document.cartCount =
        List.replicate w.document.cartCount.length
          (toString (cart.map fun item => item.quantity.toInt).sum)) ∧
    (cart = [] → ∀ el ∈ (updateCartCount w).world.document.cartCount, el = "0") ∧
    (∀ a b : CartItem, cart = [a, b] → a.quantity = .int 2 → b.quantity = .int 1 →
      ∀ el ∈ (updateCartCount w).world.document.cartCount, el = "3") := by
  have hcount : (cart.map fun item => |item.quantity.toInt|).sum < 2 ^ 53 →
      (updateCartCount w).world.document.cartCount =
        List.replicate w.document.cartCount.length
          (toString (cart.map fun item => item.quantity.toInt).sum) := by
    intro hb
    have hf := count_fold cart 0 (getCart_quantity w cart hcart) (by simpa using hb)
    rw [zero_add] at hf
    rw [updateCartCount_count w cart hcart, hf.1, toString_small _ hf.2.le]
  refine ⟨updateCartCount_thrown w cart hcart, updateCartCount_storage w, ?_, ?_, ?_,
    ⟨_, updateCartCount_count w cart hcart⟩, hcount, ?_, ?_⟩
  · rw [getCart_of_storage _ _ (updateCartCount_storage w), hcart]
  · simp [updateCartCount, hcart]
  · simp [updateCartCount, hcart]
  · intro hnil el hel
    rw [hcount (by rw [hnil]; norm_num), hnil] at hel
    exact (List.mem_replicate.mp hel).2
  · intro a b hab ha hb el hel
    have hsmall : (cart.map fun item => |item.quantity.toInt|).sum < 2 ^ 53 := by
      rw [hab]
      simp only [List.map_cons, List.map_nil, List.sum_cons, List.sum_nil, ha, hb,
        JSVal.toInt]
      norm_num
    rw [hcount hsmall, hab] at hel
    have := (List.mem_replicate.mp hel).2
    simp only [List.map_cons, List.map_nil, ha, hb, JSVal.toInt] at this
    exact this

/-- C9, amended, at `sampleWorld`: both count displays show `3`. -/
theorem updateCartCount_spec_witness :
    getCart sampleWorld = .ok sampleCart ∧
    (sampleCart.map fun item => |item.quantity.toInt|).sum < 2 ^ 53 ∧
    (updateCartCount sampleWorld).world.document.cartCount = ["3", "3"] :=
  ⟨rfl, by decide,
    (updateCartCount_spec sampleWorld sampleCart rfl).2.2.2.2.2.2.1 (by decide)⟩

/-! ## The cart table -/

theorem toFixed_near (t : ℚ) (C : ℕ) (ht : 0 ≤ t) (h : |t - (C : ℚ) / 100| < 1 / 200)
    (hC : C < 10 ^ 22) : toFixed t 2 = String.mk (fixedDigits 2 C) := by
  have h0 : ¬ (t < 0) := not_lt.mpr ht
  obtain ⟨h1, h2⟩ := abs_lt.mp h
  have hC' : (C : ℚ) < 10 ^ 22 := by exact_mod_cast hC
  have hbig : ¬ ((10 : ℚ) ^ 21 ≤ t) := by
    rw [not_le]
    have : (C : ℚ) / 100 < 10 ^ 20 := by
      rw [div_lt_iff₀ (by norm_num)]
      calc (C : ℚ) < 10 ^ 22 := hC'
        _ = 10 ^ 20 * 100 := by norm_num
    have h3 : (10 : ℚ) ^ 20 + 1 / 200 < 10 ^ 21 := by norm_num
    linarith
  have hfloor : ⌊t * 10 ^ 2 + 1 / 2⌋ = (C : ℤ) := by
    rw [Int.floor_eq_iff]
    constructor
    · push_cast
      linarith
    · push_cast
      linarith
  simp only [toFixed, h0, if_false, hbig, hfloor, Int.toNat_ofNat]
  rfl

theorem toFixed_cents (C : ℕ) (hC : C < 10 ^ 22) :
    toFixed ((C : ℚ) / 100) 2 = String.mk (fixedDigits 2 C) :=
  toFixed_near _ C (by positivity) (by simp) hC

theorem price_error (c : ℕ) (p : ℚ) (hc : c ≤ 2 ^ 53)
    (h : toDouble ((c : ℚ) / 100) = .val p) :
    0 ≤ p ∧ |p - (c : ℚ) / 100| ≤ (c : ℚ) / 100 / 2 ^ 53 := by
  rcases Nat.eq_zero_or_pos c with h0 | hpos
  · subst h0
    have : toDouble (((0 : ℕ) : ℚ) / 100) = .val 0 := by simp [toDouble]
    rw [this] at h
    have hp : p = 0 := by
      injection h with h'
      exact h'.symm
    subst hp
    simp
  · have hc1 : (1 : ℚ) ≤ c := by exact_mod_cast hpos
    have hc2 : (c : ℚ) ≤ 2 ^ 53 := by exact_mod_cast hc
    have hlo : (1 : ℚ) / 2 ^ 20 ≤ (c : ℚ) / 100 := by
      rw [le_div_iff₀ (by norm_num)]
      have : (1 : ℚ) / 2 ^ 20 * 100 ≤ 1 := by norm_num
      linarith
    have hhi : (c : ℚ) / 100 ≤ 2 ^ 100 := by
      rw [div_le_iff₀ (by norm_num)]
      have : (2 : ℚ) ^ 53 ≤ 2 ^ 100 * 100 := by norm_num
      linarith
    obtain ⟨r, hr, herr⟩ := toDouble_error _ hlo hhi
    rw [hr] at h
    have hp : r = p := by
      injection h
    subst hp
    refine ⟨?_, herr⟩
    have hx : 0 ≤ (c : ℚ) / 100 := by positivity
    have hle : (c : ℚ) / 100 / 2 ^ 53 ≤ (c : ℚ) / 100 :=
      div_le_self hx (one_le_pow₀ (by norm_num))
    have := (abs_le.mp herr).1
    linarith

theorem subtotal_error (c n : ℕ) (p : ℚ) (hcn : c * n ≤ 2 ^ 53)
    (h : toDouble ((c : ℚ) / 100) = .val p) :
    ∃ s : ℚ, toDouble (p * n) = .val s ∧ 0 ≤ s ∧
      |s - ((c * n : ℕ) : ℚ) / 100| ≤ 3 * (((c * n : ℕ) : ℚ) / 100 / 2 ^ 53) := by
  rcases Nat.eq_zero_or_pos (c * n) with h0 | hpos
  · have hpn : p * n = 0 := by
      rcases Nat.mul_eq_zero.mp h0 with hc | hn
      · subst hc
        have hp := (price_error 0 p (by norm_num) h).2
        have : |p| ≤ 0 := by simpa using hp
        have hp' : p = 0 := abs_eq_zero.mp (le_antisymm this (abs_nonneg p))
        rw [hp']
        simp
      · subst hn
        simp
    refine ⟨0, ?_, le_refl _, ?_⟩
    · rw [hpn]
      simp [toDouble]
    · rw [h0]
      simp
  · have hn1 : 1 ≤ n := Nat.pos_of_ne_zero fun hn => by simp [hn] at hpos
    have hc : c ≤ 2 ^ 53 := le_trans (Nat.le_mul_of_pos_right c hn1) hcn
    obtain ⟨_, hp⟩ := price_error c p hc h
    set A : ℚ := ((c * n : ℕ) : ℚ) / 100 with hA
    have hA1 : (1 : ℚ) / 100 ≤ A := by
      rw [hA, le_div_iff₀ (by norm_num)]
      have : (1 : ℚ) ≤ ((c * n : ℕ) : ℚ) := by exact_mod_cast hpos
      linarith
    have hA2 : A ≤ 2 ^ 53 / 100 := by
      rw [hA]
      have : ((c * n : ℕ) : ℚ) ≤ 2 ^ 53 := by exact_mod_cast hcn
      exact div_le_div_of_nonneg_right this (by norm_num)
    have hn0 : (0 : ℚ) ≤ n := Nat.cast_nonneg n
    have hPA : |p * n - A| ≤ A / 2 ^ 53 := by
      have e1 : p * n - A = (p - (c : ℚ) / 100) * n := by
        rw [hA]
        push_cast
        ring
      have e2 : A / 2 ^ 53 = (c : ℚ) / 100 / 2 ^ 53 * n := by
        rw [hA]
        push_cast
        ring
      rw [e1, e2, abs_mul, abs_of_nonneg hn0]
      exact mul_le_mul_of_nonneg_right hp hn0
    obtain ⟨hPA1, hPA2⟩ := abs_le.mp hPA
    have hsmall : A / 2 ^ 53 ≤ A / 2 := by
      apply div_le_div_of_nonneg_left (by linarith) (by norm_num) (by norm_num)
    have hlo : (1 : ℚ) / 2 ^ 20 ≤ p * n := by
      have : (1 : ℚ) / 2 ^ 20 ≤ 1 / 200 := by norm_num
      linarith
    have hhi : p * n ≤ 2 ^ 100 := by
      have : (2 : ℚ) ^ 53 / 100 * 2 ≤ 2 ^ 100 := by norm_num
      linarith
    obtain ⟨s, hs, herr⟩ := toDouble_error _ hlo hhi
    obtain ⟨herr1, herr2⟩ := abs_le.mp herr
    have hP2 : p * n / 2 ^ 53 ≤ 2 * (A / 2 ^ 53) := by
      have : p * n ≤ 2 * A := by linarith
      calc p * n / 2 ^ 53 ≤ 2 * A / 2 ^ 53 :=
            div_le_div_of_nonneg_right this (by norm_num)
        _ = 2 * (A / 2 ^ 53) := by ring
    have hP3 : p * n / 2 ^ 53 ≤ p * n / 2 := by
      apply div_le_div_of_nonneg_left (by linarith) (by norm_num) (by norm_num)
    refine ⟨s, hs, by linarith, ?_⟩
    rw [abs_le]
    constructor <;> linarith

theorem lineCents_int (cents : CartItem → ℕ) (item : CartItem) (n : ℕ)
    (hq : item.quantity = .int n) : lineCents cents item = cents item * n := by
  simp [lineCents, hq, JSVal.toInt]

theorem subtotal_int (item : CartItem) (n : ℕ) (hq : item.quantity = .int n) :
    JSNumber.mul (.val item.price) item.quantity.toNumber = toDouble (item.price * n) := by
  rw [hq]
  simp [JSNumber.mul, JSVal.toNumber]

theorem render_fold_rows (cart : Cart) (acc : List Row × JSNumber) :
    (cart.foldl renderStep acc).1 = acc.1 ++ cart.map renderRow := by
  induction cart generalizing acc with
  | nil => simp
  | cons x xs ih =>
    rw [List.foldl_cons, ih]
    simp [renderStep]

/-- The accumulated total stays within `k` roundings' worth of the exact amount. -/
theorem render_fold_near (cents : CartItem → ℕ) (Cf N : ℕ) (η : ℚ)
    (hη : η = 5 * ((Cf : ℚ) / 100 / 2 ^ 53)) (hNη : (N : ℚ) * η < 1 / 200)
    (hCf : Cf ≤ 2 ^ 53) :
    ∀ (cart : Cart) (rows : List Row) (t : ℚ) (k C0 : ℕ),
      (∀ item ∈ cart, toDouble ((cents item : ℚ) / 100) = .val item.price) →
      (∀ item ∈ cart, ∃ n : ℕ, item.quantity = .int n) →
      k + cart.length ≤ N → C0 + (cart.map (lineCents cents)).sum ≤ Cf →
      0 ≤ t → (C0 = 0 → t = 0) → |t - (C0 : ℚ) / 100| ≤ k * η →
      ∃ t', cart.foldl renderStep (rows, .val t) = (rows ++ cart.map renderRow, .val t') ∧
        0 ≤ t' ∧
        |t' - ((C0 + (cart.map (lineCents cents)).sum : ℕ) : ℚ) / 100| ≤
          ((k + cart.length : ℕ) : ℚ) * η := by
  have hη0 : 0 ≤ η := by
    rw [hη]
    positivity
  intro cart
  induction cart with
  | nil =>
    intro rows t k C0 _ _ _ _ ht _ herr
    exact ⟨t, by simp, ht, by simpa using herr⟩
  | cons x xs ih =>
    intro rows t k C0 hprice hqty hlen hsum ht hzero herr
    obtain ⟨n, hq⟩ := hqty x (List.mem_cons_self _ _)
    have hline : lineCents cents x = cents x * n := lineCents_int cents x n hq
    rw [List.map_cons, List.sum_cons, hline] at hsum
    have hcn : cents x * n ≤ Cf := by omega
    obtain ⟨s, hs, hs0, hserr⟩ := subtotal_error (cents x) n x.price (le_trans hcn hCf)
      (hprice x (List.mem_cons_self _ _))
    have hk1 : ((k + 1 : ℕ) : ℚ) * η ≤ (N : ℚ) * η := by
      apply mul_le_mul_of_nonneg_right _ hη0
      have : k + 1 ≤ N := by
        simp only [List.length_cons] at hlen
        omega
      exact_mod_cast this
    have hk1' : ((k + 1 : ℕ) : ℚ) * η = k * η + η := by
      push_cast
      ring
    have hAle : ((cents x * n : ℕ) : ℚ) / 100 / 2 ^ 53 ≤ (Cf : ℚ) / 100 / 2 ^ 53 := by
      have : ((cents x * n : ℕ) : ℚ) ≤ (Cf : ℚ) := by exact_mod_cast hcn
      apply div_le_div_of_nonneg_right _ (by norm_num)
      exact div_le_div_of_nonneg_right this (by norm_num)
    have hT1 : ((C0 + cents x * n : ℕ) : ℚ) / 100 =
        (C0 : ℚ) / 100 + ((cents x * n : ℕ) : ℚ) / 100 := by
      push_cast
      ring
    have hstep : renderStep (rows, .val t) x = (rows ++ [renderRow x], toDouble (t + s)) := by
      simp only [renderStep, subtotal_int x n hq, hs, JSNumber.add]
    obtain ⟨herr1, herr2⟩ := abs_le.mp herr
    obtain ⟨hserr1, hserr2⟩ := abs_le.mp hserr
    have hnext : ∃ t1, toDouble (t + s) = .val t1 ∧ 0 ≤ t1 ∧
        (C0 + cents x * n = 0 → t1 = 0) ∧
        |t1 - ((C0 + cents x * n : ℕ) : ℚ) / 100| ≤ ((k + 1 : ℕ) : ℚ) * η := by
      rcases Nat.eq_zero_or_pos (C0 + cents x * n) with h0 | hpos
      · have hC0 : C0 = 0 := by omega
        have hA0 : cents x * n = 0 := by omega
        have ht0 : t = 0 := hzero hC0
        have hs0' : s = 0 := by
          rw [hA0] at hserr
          have : |s| ≤ 0 := by simpa using hserr
          exact abs_eq_zero.mp (le_antisymm this (abs_nonneg s))
        refine ⟨0, ?_, le_refl _, fun _ => rfl, ?_⟩
        · rw [ht0, hs0']
          simp [toDouble]
        · rw [h0]
          simp only [Nat.cast_zero, zero_div, sub_zero, abs_zero]
          exact mul_nonneg (Nat.cast_nonneg _) hη0
      · have hT1lo : (1 : ℚ) / 100 ≤ ((C0 + cents x * n : ℕ) : ℚ) / 100 := by
          have : (1 : ℚ) ≤ ((C0 + cents x * n : ℕ) : ℚ) := by exact_mod_cast hpos
          exact div_le_div_of_nonneg_right this (by norm_num)
        have hT1hi : ((C0 + cents x * n : ℕ) : ℚ) / 100 ≤ (Cf : ℚ) / 100 := by
          have : C0 + cents x * n ≤ Cf := by omega
          have : ((C0 + cents x * n : ℕ) : ℚ) ≤ (Cf : ℚ) := by exact_mod_cast this
          exact div_le_div_of_nonneg_right this (by norm_num)
        have hCfq : (Cf : ℚ) / 100 ≤ 2 ^ 53 / 100 := by
          have : (Cf : ℚ) ≤ 2 ^ 53 := by exact_mod_cast hCf
          exact div_le_div_of_nonneg_right this (by norm_num)
        have hlo : (1 : ℚ) / 2 ^ 20 ≤ t + s := by
          have : (1 : ℚ) / 2 ^ 20 ≤ 1 / 200 := by norm_num
          linarith
        have hhi : t + s ≤ 2 ^ 100 := by
          have : (2 : ℚ) ^ 53 / 100 + 1 / 200 ≤ 2 ^ 100 := by norm_num
          linarith
        obtain ⟨t1, ht1, herr3⟩ := toDouble_error _ hlo hhi
        obtain ⟨h31, h32⟩ := abs_le.mp herr3
        have hu : (t + s) / 2 ^ 53 ≤ 2 * ((Cf : ℚ) / 100 / 2 ^ 53) := by
          have : t + s ≤ 2 * ((Cf : ℚ) / 100) := by linarith
          calc (t + s) / 2 ^ 53 ≤ 2 * ((Cf : ℚ) / 100) / 2 ^ 53 :=
                div_le_div_of_nonneg_right this (by norm_num)
            _ = 2 * ((Cf : ℚ) / 100 / 2 ^ 53) := by ring
        have hu2 : (t + s) / 2 ^ 53 ≤ (t + s) / 2 := by
          apply div_le_div_of_nonneg_left (by linarith) (by norm_num) (by norm_num)
        refine ⟨t1, ht1, by linarith, fun h => absurd h (by omega), ?_⟩
        rw [abs_le]
        constructor <;> linarith
    obtain ⟨t1, ht1, ht10, hzero1, herr1'⟩ := hnext
    have hlen' : (k + 1) + xs.length ≤ N := by
      simp only [List.length_cons] at hlen
      omega
    have hsum' : (C0 + cents x * n) + (xs.map (lineCents cents)).sum ≤ Cf := by omega
    obtain ⟨t', hfold, ht'0, herr'⟩ := ih (rows ++ [renderRow x]) t1 (k + 1)
      (C0 + cents x * n)
      (fun item hitem => hprice item (List.mem_cons_of_mem _ hitem))
      (fun item hitem => hqty item (List.mem_cons_of_mem _ hitem))
      hlen' hsum' ht10 hzero1 herr1'
    refine ⟨t', ?_, ht'0, ?_⟩
    · rw [List.foldl_cons, hstep, ht1, hfold]
      simp
    · have e1 : C0 + (List.map (lineCents cents) (x :: xs)).sum =
          (C0 + cents x * n) + (xs.map (lineCents cents)).sum := by
        rw [List.map_cons, List.sum_cons, hline]
        omega
      have e2 : k + (x :: xs).length = (k + 1) + xs.length := by
        simp only [List.length_cons]
        omega
      rw [e1, e2]
      exact herr'

theorem renderCartTable_regions (w : World) (cart : Cart) (rows0 : List Row)
    (hcart : getCart w = .ok cart) (hbody : w.document.cartItems = some rows0) :
    (renderCartTable w).world.document.cartItems = some (cart.map renderRow) ∧
    (renderCartTable w).world.document.cartTotal =
      w.document.cartTotal.map fun _ =>
        "$" ++ (cart.foldl renderStep ([], .val 0)).2.toFixed 2 := by
  have hrows := render_fold_rows cart ([], .val 0)
  rcases hfold : cart.foldl renderStep ([], .val 0) with ⟨rows, total⟩
  rw [hfold] at hrows
  simp only [List.nil_append] at hrows
  subst hrows
  simp only [renderCartTable, hbody, hcart, hfold]
  refine ⟨?_, ?_⟩ <;> trivial

theorem sum_lineAmount (cents : CartItem → ℕ) (cart : Cart)
    (hqty : ∀ item ∈ cart, ∃ n : ℕ, item.quantity = .int n) :
    (cart.map (lineAmount cents)).sum = ((cart.map (lineCents cents)).sum : ℕ) / 100 := by
  induction cart with
  | nil => simp
  | cons x xs ih =>
    obtain ⟨n, hq⟩ := hqty x (List.mem_cons_self _ _)
    rw [List.map_cons, List.sum_cons, List.map_cons, List.sum_cons,
      ih fun item hitem => hqty item (List.mem_cons_of_mem _ hitem),
      lineCents_int cents x n hq]
    simp only [lineAmount, hq, JSVal.toInt]
    push_cast
    ring

/-- Within the size bound the rendered total and subtotals are the exact ones. -/
theorem render_exact (w : World) (cart : Cart) (rows0 : List Row) (total0 : String)
    (cents : CartItem → ℕ)
    (hcart : getCart w = .ok cart) (hbody : w.document.cartItems = some rows0)
    (htotal : w.document.cartTotal = some total0)
    (hprice : ∀ item ∈ cart, toDouble ((cents item : ℚ) / 100) = .val item.price)
    (hqty : ∀ item ∈ cart, ∃ n : ℕ, item.quantity = .int n)
    (hsize : 10 * cart.length * (cart.map (lineCents cents)).sum < 2 ^ 53) :
    (renderCartTable w).world.document.cartTotal =
      some ("$" ++ String.mk (fixedDigits 2 (cart.map (lineCents cents)).sum)) ∧
    (renderCartTable w).world.document.cartTotal =
      some ("$" ++ toFixed (cart.map (lineAmount cents)).sum 2) ∧
    (cart.map renderRow).map (·.subtotal) =
      cart.map (fun item => "$" ++ toFixed (lineAmount cents item) 2) := by
  obtain ⟨_, hdoc⟩ := renderCartTable_regions w cart rows0 hcart hbody
  set Cf := (cart.map (lineCents cents)).sum with hCfdef
  have hsizeq : (10 : ℚ) * cart.length * Cf < 2 ^ 53 := by exact_mod_cast hsize
  have hCf : Cf ≤ 2 ^ 53 := by
    rcases Nat.eq_zero_or_pos cart.length with h0 | hpos
    · have hnil : cart = [] := List.length_eq_zero.mp h0
      rw [hCfdef, hnil]
      simp
    · have : Cf ≤ 10 * cart.length * Cf := by
        calc Cf = 1 * Cf := (one_mul _).symm
          _ ≤ 10 * cart.length * Cf := Nat.mul_le_mul_right _ (by omega)
      omega
  have hCf22 : Cf < 10 ^ 22 := lt_of_le_of_lt hCf (by norm_num)
  have hNη : (cart.length : ℚ) * (5 * ((Cf : ℚ) / 100 / 2 ^ 53)) < 1 / 200 := by
    have e : (cart.length : ℚ) * (5 * ((Cf : ℚ) / 100 / 2 ^ 53)) =
        (10 * cart.length * Cf) / (200 * 2 ^ 53) := by ring
    rw [e, div_lt_iff₀ (by norm_num)]
    linarith
  obtain ⟨t', hfold, ht'0, herr⟩ := render_fold_near cents Cf cart.length _ rfl hNη hCf cart
    [] 0 0 0 hprice hqty (by omega) (by omega) (le_refl _) (fun _ => rfl) (by simp)
  have herr' : |t' - (Cf : ℚ) / 100| < 1 / 200 := by
    have e : ((0 + (cart.map (lineCents cents)).sum : ℕ) : ℚ) = (Cf : ℚ) := by
      rw [zero_add]
    rw [e] at herr
    have e2 : ((0 + cart.length : ℕ) : ℚ) = (cart.length : ℚ) := by
      rw [zero_add]
    rw [e2] at herr
    exact lt_of_le_of_lt herr hNη
  have htext : (renderCartTable w).world.document.cartTotal =
      some ("$" ++ String.mk (fixedDigits 2 Cf)) := by
    rw [hdoc, htotal, hfold]
    simp only [Option.map_some', JSNumber.toFixed, toFixed_near t' Cf ht'0 herr' hCf22]
  refine ⟨htext, ?_, ?_⟩
  · rw [htext, sum_lineAmount cents cart hqty, toFixed_cents Cf hCf22]
  · rw [List.map_map]
    apply List.map_congr_left
    intro item hitem
    obtain ⟨n, hq⟩ := hqty item hitem
    have hmem : lineCents cents item ≤ Cf :=
      List.le_sum_of_mem (List.mem_map_of_mem _ hitem)
    rw [lineCents_int cents item n hq] at hmem
    have hlen : 1 ≤ cart.length := List.length_pos_of_mem hitem
    have hA : 10 * (cents item * n) < 2 ^ 53 := by
      have h1 : 10 * (cents item * n) ≤ 10 * Cf := Nat.mul_le_mul_left _ hmem
      have h2 : 10 * Cf ≤ 10 * cart.length * Cf := by
        calc 10 * Cf = 10 * 1 * Cf := by ring
          _ ≤ 10 * cart.length * Cf :=
            Nat.mul_le_mul_right _ (Nat.mul_le_mul_left _ hlen)
      omega
    have hAq : (10 : ℚ) * ((cents item * n : ℕ) : ℚ) < 2 ^ 53 := by exact_mod_cast hA
    obtain ⟨s, hs, hs0, hserr⟩ := subtotal_error (cents item) n item.price (by omega)
      (hprice item hitem)
    have hserr' : |s - ((cents item * n : ℕ) : ℚ) / 100| < 1 / 200 := by
      have : 3 * (((cents item * n : ℕ) : ℚ) / 100 / 2 ^ 53) < 1 / 200 := by
        have e : 3 * (((cents item * n : ℕ) : ℚ) / 100 / 2 ^ 53) =
            (10 * ((cents item * n : ℕ) : ℚ)) * (3 / (1000 * 2 ^ 53)) := by ring
        rw [e]
        have : (10 * ((cents item * n : ℕ) : ℚ)) * (3 / (1000 * 2 ^ 53)) <
            2 ^ 53 * (3 / (1000 * 2 ^ 53)) :=
          mul_lt_mul_of_pos_right hAq (by norm_num)
        have e2 : (2 : ℚ) ^ 53 * (3 / (1000 * 2 ^ 53)) = 3 / 1000 := by norm_num
        linarith
      exact lt_of_le_of_lt hserr this
    have hline : lineAmount cents item = ((cents item * n : ℕ) : ℚ) / 100 := by
      simp only [lineAmount, hq, JSVal.toInt]
      push_cast
      ring
    have hA22 : cents item * n < 10 ^ 22 := by
      have : (2 : ℕ) ^ 53 < 10 ^ 22 := by norm_num
      omega
    show (renderRow item).subtotal = _
    simp only [renderRow, subtotal_int item n hq, hs, JSNumber.toFixed,
      toFixed_near s _ hs0 hserr' hA22, hline, toFixed_cents _ hA22]

/-- The double nearest to 1.005 lies below it. -/
theorem toDouble_1005 :
    toDouble (1005 / 1000) = .val (1131529406376837 / 1125899906842624) := by
  have hpos : (0 : ℚ) < 1005 / 1000 := by norm_num
  have hlog : Int.log 2 |(1005 / 1000 : ℚ)| = 0 := by
    rw [abs_of_pos hpos]
    apply le_antisymm
    · have : Int.log 2 (1005 / 1000 : ℚ) < 1 :=
        (Int.lt_zpow_iff_log_lt (by norm_num) hpos).mp (by norm_num)
      omega
    · exact (Int.zpow_le_iff_le_log (by norm_num) hpos).mp (by norm_num)
  unfold toDouble
  rw [if_neg hpos.ne', hlog, abs_of_pos hpos]
  norm_num [roundHalfEven]

theorem renderStep_total (acc : List Row × JSNumber) (item : CartItem) :
    (renderStep acc item).2 =
      acc.2.add (JSNumber.mul (.val item.price) item.quantity.toNumber) :=
  rfl

theorem bigPair_total :
    (bigPair.foldl renderStep ([], .val 0)).2 = .val 9007199254740992 := by
  have m1 : JSNumber.mul (.val 1) (JSVal.int 9007199254740991).toNumber =
      .val 9007199254740991 := by
    have := toDouble_int 9007199254740991 (by norm_num)
    simp only [JSNumber.mul, JSVal.toNumber, one_mul, this]
    norm_num
  have a1 : JSNumber.add (.val 0) (.val 9007199254740991) = .val 9007199254740991 := by
    have := toDouble_int 9007199254740991 (by norm_num)
    simp only [JSNumber.add, zero_add]
    norm_num at this ⊢
    exact this
  have m2 : JSNumber.mul (.val 1) (JSVal.int 2).toNumber = .val 2 := by
    have := toDouble_int 2 (by norm_num)
    simp only [JSNumber.mul, JSVal.toNumber, one_mul, this]
    norm_num
  have a2 : JSNumber.add (.val 9007199254740991) (.val 2) = .val 9007199254740992 := by
    have := toDouble_two_pow_53_add_one
    simp only [JSNumber.add]
    norm_num at this ⊢
    exact this
  have h0 : (bigPair.foldl renderStep ([], .val 0)).2 =
      JSNumber.add (JSNumber.add (.val 0)
        (JSNumber.mul (.val 1) (JSVal.int 9007199254740991).toNumber))
        (JSNumber.mul (.val 1) (JSVal.int 2).toNumber) := by
    rw [bigPair, List.foldl_cons, List.foldl_cons, List.foldl_nil, renderStep_total,
      renderStep_total]
  rw [h0, m1, a1, m2, a2]

theorem milliCart_total :
    (milliCart.foldl renderStep ([], .val 0)).2 =
      .val (1131529406376837 / 1125899906842624) := by
  have hd : toDouble (((1131529406376837 : ℤ) : ℚ) / 2 ^ 50) =
      .val (((1131529406376837 : ℤ) : ℚ) / 2 ^ 50) :=
    toDouble_exact 1131529406376837 50 (by norm_num) (by norm_num)
  have hd' : toDouble (1131529406376837 / 1125899906842624) =
      .val (1131529406376837 / 1125899906842624) := by
    norm_num at hd ⊢
    exact hd
  have m1 : JSNumber.mul (.val (1131529406376837 / 1125899906842624))
      (JSVal.int 1).toNumber = .val (1131529406376837 / 1125899906842624) := by
    simp only [JSNumber.mul, JSVal.toNumber, Int.cast_one, mul_one, hd']
  have a1 : JSNumber.add (.val 0) (.val (1131529406376837 / 1125899906842624)) =
      .val (1131529406376837 / 1125899906842624) := by
    simp only [JSNumber.add, zero_add, hd']
  have h0 : (milliCart.foldl renderStep ([], .val 0)).2 =
      JSNumber.add (.val 0) (JSNumber.mul (.val (1131529406376837 / 1125899906842624))
        (JSVal.int 1).toNumber) := by
    rw [milliCart, List.foldl_cons, List.foldl_nil, renderStep_total]
  rw [h0, m1, a1]

/-- C8, refuted as stated.  With the quantities `2^53 - 1` and `2` at price 1.00 the exact
total is 9007199254740993.00 and the total display shows `$9007199254740992.00`; with the
price 1.005 and quantity 1 the exact total renders as `1.01` and the total display shows
`$1.00`. -/
theorem renderCartTable_total_rounds :
    getCart bigPairWorld = .ok bigPair ∧
    (renderCartTable bigPairWorld).world.document.cartTotal =
      some "$9007199254740992.00" ∧
    toFixed (1 * 9007199254740991 + 1 * 2) 2 = "9007199254740993.00" ∧
    getCart milliWorld = .ok milliCart ∧
    toDouble (1005 / 1000) = .val (1131529406376837 / 1125899906842624) ∧
    (renderCartTable milliWorld).world.document.cartTotal = some "$1.00" ∧
    toFixed (1005 / 1000 * 1) 2 = "1.01" := by
  refine ⟨rfl, ?_, ?_, rfl, toDouble_1005, ?_, ?_⟩
  · rw [(renderCartTable_regions bigPairWorld bigPair [] rfl rfl).2, bigPair_total]
    have : toFixed 9007199254740992 2 = String.mk (fixedDigits 2 900719925474099200) :=
      toFixed_near _ 900719925474099200 (by norm_num) (by norm_num) (by norm_num)
    show some ("$" ++ toFixed 9007199254740992 2) = _
    rw [this]
    decide
  · have : toFixed (1 * 9007199254740991 + 1 * 2) 2 =
        String.mk (fixedDigits 2 900719925474099300) :=
      toFixed_near _ 900719925474099300 (by norm_num) (by norm_num) (by norm_num)
    rw [this]
    decide
  · rw [(renderCartTable_regions milliWorld milliCart [] rfl rfl).2, milliCart_total]
    have : toFixed (1131529406376837 / 1125899906842624) 2 = String.mk (fixedDigits 2 100) :=
      toFixed_near _ 100 (by norm_num) (by norm_num [abs_lt]) (by norm_num)
    show some ("$" ++ toFixed (1131529406376837 / 1125899906842624) 2) = _
    rw [this]
    decide
  · have h0 : ¬ ((1005 / 1000 * 1 : ℚ) < 0) := by norm_num
    have hbig : ¬ ((10 : ℚ) ^ 21 ≤ 1005 / 1000 * 1) := by norm_num
    have hfloor : ⌊(1005 / 1000 * 1 : ℚ) * 10 ^ 2 + 1 / 2⌋ = 101 := by
      rw [Int.floor_eq_iff]
      constructor <;> norm_num
    simp only [toFixed, h0, if_false, hbig, hfloor]
    decide

theorem sampleCents_price (a b : CartItem) (ha : a.price = 10) (hb : b.price = 7 / 2) :
    ∀ item ∈ [a, b], toDouble ((sampleCents item : ℚ) / 100) = .val item.price := by
  have h10 : toDouble (((1000 : ℕ) : ℚ) / 100) = .val 10 := by
    have := toDouble_int 10 (by norm_num)
    norm_num at this ⊢
    exact this
  have h35 : toDouble (((350 : ℕ) : ℚ) / 100) = .val (7 / 2) := by
    have := toDouble_exact 7 1 (by norm_num) (by norm_num)
    norm_num at this ⊢
    exact this
  intro item hitem
  simp only [List.mem_cons, List.mem_singleton, List.not_mem_nil, or_false] at hitem
  rcases hitem with rfl | rfl
  · simp only [sampleCents, ha, if_true]
    exact h10
  · have hcents : sampleCents item = 350 := by
      have hne : ¬ (item.price = 10) := by
        rw [hb]
        norm_num
      simp only [sampleCents, hne, if_false]
    rw [hcents, hb]
    exact h35

theorem sampleCart_quantities : ∀ item ∈ sampleCart, ∃ n : ℕ, item.quantity = .int n := by
  intro item hitem
  simp only [sampleCart, List.mem_cons, List.mem_singleton, List.not_mem_nil,
    or_false] at hitem
  rcases hitem with rfl | rfl
  · exact ⟨2, rfl⟩
  · exact ⟨1, rfl⟩

theorem sampleCart_size :
    10 * sampleCart.length * (sampleCart.map (lineCents sampleCents)).sum < 2 ^ 53 := by
  have hsum : (sampleCart.map (lineCents sampleCents)).sum = 2350 := by
    have hne : ¬ ((7 : ℚ) / 2 = 10) := by norm_num
    simp [sampleCart, lineCents, sampleCents, hne, JSVal.toInt]
  rw [hsum]
  norm_num [sampleCart]

/-- C8, amended: when the table body and the total display exist, `renderCartTable` ends
normally and replaces the rows by one row per entry, in order.  When moreover every price
is the double nearest to a whole number of cents, every quantity is a non-negative integer
and ten times the number of entries times the exact total in cents stays below `2^53`, the
subtotal text of each row is `$` followed by the two-decimal rendering of the exact
`price × quantity`, and the total display holds `$` followed by the two-decimal rendering
of the exact sum of `price × quantity` over all entries: `$23.50` for prices 10.00 and 3.50
with quantities 2 and 1, `$0.00` for the empty cart. -/
theorem renderCartTable_totals (w : World) (cart : Cart) (rows0 : List Row) (total0 : String)
    (hcart : getCart w = .ok cart) (hbody : w.document.cartItems = some rows0)
    (htotal : w.document.cartTotal = some total0) :
    (renderCartTable w).thrown = none ∧
    (∃ rows, (renderCartTable w).world.document.cartItems = some rows ∧
      rows.length = cart.length ∧ rows.map (·.itemId) = ids cart) ∧
    (∀ cents : CartItem → ℕ,
      (∀ item ∈ cart, toDouble ((cents item : ℚ) / 100) = .val item.price) →
      (∀ item ∈ cart, ∃ n : ℕ, item.quantity = .int n) →
      10 * cart.length * (cart.map (lineCents cents)).sum < 2 ^ 53 →
      (renderCartTable w).world.document.cartTotal =
        some ("$" ++ toFixed (cart.map (lineAmount cents)).sum 2) ∧
      ∃ rows, (renderCartTable w).world.document.cartItems = some rows ∧
        rows.map (·.subtotal) =
          cart.map (fun item => "$" ++ toFixed (lineAmount cents item) 2)) ∧
    (∀ a b : CartItem, cart = [a, b] → a.price = 10 → a.quantity = .int 2 →
      b.price = 7 / 2 → b.quantity = .int 1 →
      (renderCartTable w).world.document.cartTotal = some "$23.50") ∧
    (cart = [] → (renderCartTable w).world.document.cartTotal = some "$0.00") := by
  obtain ⟨hrows, _⟩ := renderCartTable_regions w cart rows0 hcart hbody
  refine ⟨renderCartTable_thrown w cart hcart, ⟨_, hrows, by simp, ?_⟩, ?_, ?_, ?_⟩
  · rw [List.map_map]
    rfl
  · intro cents hprice hqty hsize
    obtain ⟨_, h2, h3⟩ := render_exact w cart rows0 total0 cents hcart hbody htotal hprice
      hqty hsize
    exact ⟨h2, _, hrows, h3⟩
  · intro a b hab hap haq hbp hbq
    subst hab
    have hqty : ∀ item ∈ [a, b], ∃ n : ℕ, item.quantity = .int n := by
      intro item hitem
      simp only [List.mem_cons, List.mem_singleton, List.not_mem_nil, or_false] at hitem
      rcases hitem with rfl | rfl
      · exact ⟨2, haq⟩
      · exact ⟨1, hbq⟩
    have hne : ¬ (b.price = 10) := by
      rw [hbp]
      norm_num
    have hsum : ([a, b].map (lineCents sampleCents)).sum = 2350 := by
      simp [lineCents, sampleCents, hap, haq, hne, hbq, JSVal.toInt]
    have hsize : 10 * [a, b].length * ([a, b].map (lineCents sampleCents)).sum < 2 ^ 53 := by
      rw [hsum]
      norm_num
    obtain ⟨h1, _, _⟩ := render_exact w [a, b] rows0 total0 sampleCents hcart hbody htotal
      (sampleCents_price a b hap hbp) hqty hsize
    rw [h1, hsum]
    decide
  · intro hnil
    subst hnil
    obtain ⟨h1, _, _⟩ := render_exact w [] rows0 total0 sampleCents hcart hbody htotal
      (by simp) (by simp) (by norm_num)
    rw [h1]
    decide

/-- C8, amended, at `sampleWorld` (prices 10.00 and 3.50, quantities 2 and 1): the total
display shows `$23.50`. -/
theorem renderCartTable_totals_witness :
    getCart sampleWorld = .ok sampleCart ∧ sampleWorld.document.cartItems = some [] ∧
    sampleWorld.document.cartTotal = some "old" ∧
    (∀ item ∈ sampleCart, toDouble ((sampleCents item : ℚ) / 100) = .val item.price) ∧
    (∀ item ∈ sampleCart, ∃ n : ℕ, item.quantity = .int n) ∧
    10 * sampleCart.length * (sampleCart.map (lineCents sampleCents)).sum < 2 ^ 53 ∧
    (renderCartTable sampleWorld).world.document.cartTotal =
      some ("$" ++ toFixed (sampleCart.map (lineAmount sampleCents)).sum 2) ∧
    (renderCartTable sampleWorld).world.document.cartTotal = some "$23.50" :=
  ⟨rfl, rfl, rfl, sampleCents_price _ _ rfl rfl,
    sampleCart_quantities, sampleCart_size,
    ((renderCartTable_totals sampleWorld sampleCart [] "old" rfl rfl rfl).2.2.1 sampleCents
      (sampleCents_price _ _ rfl rfl) sampleCart_quantities sampleCart_size).1,
    (renderCartTable_totals sampleWorld sampleCart [] "old" rfl rfl rfl).2.2.2.1 _ _ rfl rfl rfl
      rfl rfl⟩

/-! ## The product filter -/

theorem includes_iff (s search : List Char) : includes s search = true ↔ search <:+: s := by
  induction s with
  | nil => simp [includes, List.infix_nil]
  | cons c s ih =>
    rw [includes, Bool.or_eq_true, ih, List.isPrefixOf_iff_prefix, List.infix_cons_iff]

theorem display_flex_iff (b : Bool) :
    (if b = true then "flex" else "none") = "flex" ↔ b = true := by
  cases b <;> decide

theorem display_none_iff (b : Bool) :
    (if b = true then "flex" else "none") = "none" ↔ ¬ b = true := by
  cases b <;> decide

theorem filterCard_spec (toLowerCase : String → String) (searchTerm category : String)
    (card : ProductCard) :
    (filterCard toLowerCase searchTerm category card).name = card.name ∧
    (filterCard toLowerCase searchTerm category card).category = card.category ∧
    ((filterCard toLowerCase searchTerm category card).display = "flex" ↔
      (searchTerm.data <:+: (toLowerCase card.name).data ∧
        (category = "all" ∨ category = card.category))) ∧
    ((filterCard toLowerCase searchTerm category card).display = "none" ↔
      ¬ (searchTerm.data <:+: (toLowerCase card.name).data ∧
        (category = "all" ∨ category = card.category))) := by
  have hb : (includes (toLowerCase card.name).data searchTerm.data &&
      (category == "all" || category == card.category)) = true ↔
      (searchTerm.data <:+: (toLowerCase card.name).data ∧
        (category = "all" ∨ category = card.category)) := by
    rw [Bool.and_eq_true, includes_iff, Bool.or_eq_true, beq_iff_eq, beq_iff_eq]
  refine ⟨rfl, rfl, ?_, ?_⟩
  · rw [← hb]
    exact display_flex_iff _
  · rw [← hb]
    exact display_none_iff _

/-- C10: with both controls on the page, `applyFilters` ends normally and decides each card
from that card alone: name and category are kept and the display is `flex` exactly when the
lower-cased search text is a substring of the lower-cased name and the selected category is
`all` or equal to the card's category, and `none` otherwise.  When lower-casing acts on
ASCII texts as the character-wise ASCII lowering, the cards Pikachu/electric and
Charmander/fire give: search `char` with category `all` shows only Charmander; category
`electric` with an empty search shows only Pikachu; search `zzz` hides both. -/
theorem applyFilters_spec (toLowerCase : String → String) (search category : String)
    (cards : List ProductCard) :
    ∃ shown, applyFilters toLowerCase (some search) (some category) cards = .ok shown ∧
      shown.length = cards.length ∧
      (∀ (i : ℕ) (h : i < cards.length) (h' : i < shown.length),
        shown[i].name = cards[i].name ∧ shown[i].category = cards[i].category ∧
        (shown[i].display = "flex" ↔
          ((toLowerCase search).data <:+: (toLowerCase cards[i].name).data ∧
            (category = "all" ∨ category = cards[i].category))) ∧
        (shown[i].display = "none" ↔
          ¬ ((toLowerCase search).data <:+: (toLowerCase cards[i].name).data ∧
            (category = "all" ∨ category = cards[i].category)))) ∧
      ((∀ s : String, (∀ c ∈ s.data, c.toNat < 128) → toLowerCase s = asciiLower s) →
        ∀ d1 d2 : String,
          cards = [⟨"Pikachu", "electric", d1⟩, ⟨"Charmander", "fire", d2⟩] →
          (search = "char" → category = "all" →
            shown = [⟨"Pikachu", "electric", "none"⟩, ⟨"Charmander", "fire", "flex"⟩]) ∧
          (search = "" → category = "electric" →
            shown = [⟨"Pikachu", "electric", "flex"⟩, ⟨"Charmander", "fire", "none"⟩]) ∧
          (search = "zzz" →
            shown = [⟨"Pikachu", "electric", "none"⟩, ⟨"Charmander", "fire", "none"⟩])) := by
  refine ⟨cards.map (filterCard toLowerCase (toLowerCase search) category), rfl, by simp,
    ?_, ?_⟩
  · intro i h h'
    rw [List.getElem_map]
    exact filterCard_spec toLowerCase (toLowerCase search) category cards[i]
  · intro hascii d1 d2 hcards
    subst hcards
    refine ⟨?_, ?_, ?_⟩
    · intro hs hc
      subst hs hc
      simp only [List.map, filterCard]
      rw [hascii "char" (by decide), hascii "Pikachu" (by decide),
        hascii "Charmander" (by decide)]
      rfl
    · intro hs hc
      subst hs hc
      simp only [List.map, filterCard]
      rw [hascii "" (by decide), hascii "Pikachu" (by decide),
        hascii "Charmander" (by decide)]
      rfl
    · intro hs
      subst hs
      simp only [List.map, filterCard]
      rw [hascii "zzz" (by decide), hascii "Pikachu" (by decide),
        hascii "Charmander" (by decide)]
      rfl

/-- C10 with the ASCII lowering: search `char`, category `all`. -/
theorem applyFilters_spec_witness :
    (∀ s : String, (∀ c ∈ s.data, c.toNat < 128) → asciiLower s = asciiLower s) ∧
    applyFilters asciiLower (some "char") (some "all")
        [⟨"Pikachu", "electric", "flex"⟩, ⟨"Charmander", "fire", "flex"⟩] =
      .ok [⟨"Pikachu", "electric", "none"⟩, ⟨"Charmander", "fire", "flex"⟩] := by
  refine ⟨fun _ _ => rfl, ?_⟩
  obtain ⟨shown, hok, _, _, hex⟩ := applyFilters_spec asciiLower "char" "all"
    [⟨"Pikachu", "electric", "flex"⟩, ⟨"Charmander", "fire", "flex"⟩]
  rw [hok, (hex (fun _ _ => rfl) "flex" "flex" rfl).1 rfl rfl]

end CardShop
